import Mathlib

/-!
Verification of the news-feed aggregation pipeline
(`news_search.py`, `news_utils.py`, `openrouter_client.py`).

Python strings are modelled as `List Char`; Python sets used only for
membership tests are modelled as Lean lists; floats are modelled as `ℚ`.
Each definition is a direct transcription of the corresponding Python
function; network effects are passed in as explicit data.
-/

namespace Feed

/-- The character list of a string literal (model of a Python `str`). -/
def chars (s : String) : List Char := s.data

/-- Model of Python `needle in hay` for strings (contiguous substring test). -/
def containsSub (hay needle : List Char) : Bool :=
  needle.isPrefixOf hay ||
    match hay with
    | [] => false
    | _ :: t => containsSub t needle

theorem mem_of_containsSub {hay needle : List Char}
    (h : containsSub hay needle = true) : ∀ c ∈ needle, c ∈ hay := by
  induction hay with
  | nil =>
    unfold containsSub at h
    simp only [Bool.or_false] at h
    have : needle = [] := by
      cases needle with
      | nil => rfl
      | cons a t => simp [List.isPrefixOf] at h
    subst this
    intro c hc
    exact absurd hc (List.not_mem_nil c)
  | cons a t ih =>
    unfold containsSub at h
    rcases Bool.or_eq_true_iff.mp h with h1 | h2
    · intro c hc
      have hpre : needle <+: a :: t := List.isPrefixOf_iff_prefix.mp h1
      exact hpre.subset hc
    · intro c hc
      exact List.mem_cons_of_mem a (ih h2 c hc)

/-- Model of Python `str.lower()` (ASCII case folding). -/
def lowerS (s : List Char) : List Char := s.map Char.toLower

/-- Model of Python `str.isupper()`: at least one cased character and no
cased character is lowercase (ASCII letters are the cased characters). -/
def pyIsUpper (s : List Char) : Bool :=
  s.any Char.isAlpha && s.all (fun c => !Char.isAlpha c || Char.isUpper c)

/-- Model of Python `str.isalpha()` on a single character (ASCII range). -/
def isAsciiAlpha (c : Char) : Bool := c.isAlpha

/-! ## Citation deduplication (`generate_feed`, news_search.py lines 1035-1041)

```python
seen = set()
citations = []
for citation in all_citations:
    if citation not in seen:
        seen.add(citation)
        citations.append(citation)
```
-/

/-- Loop body of the dedup pass; `seen` models the Python `set` (only
membership and insertion are used, so a list is an exact model). -/
def dedupCitationsGo : List (List Char) → List (List Char) → List (List Char)
  | [], _ => []
  | c :: rest, seen =>
    if c ∈ seen then dedupCitationsGo rest seen
    else c :: dedupCitationsGo rest (c :: seen)

/-- Citation deduplication from `generate_feed` (news_search.py 1035-1041). -/
def dedupCitations (allCitations : List (List Char)) : List (List Char) :=
  dedupCitationsGo allCitations []

/-- Modelled from the spec: "the deduplicated output contains exactly one
occurrence of each distinct URL, positioned by its first occurrence in the
input" — the canonical keep-the-first-occurrence deduplication. -/
def keepFirstOccurrence : List (List Char) → List (List Char)
  | [] => []
  | c :: rest => c :: keepFirstOccurrence (rest.filter (fun x => x ≠ c))
termination_by l => l.length
decreasing_by
  simp only [List.length_cons]
  exact Nat.lt_succ_of_le (List.length_filter_le _ _)

theorem dedupCitationsGo_eq_keepFirst (l : List (List Char)) :
    ∀ seen, dedupCitationsGo l seen =
      keepFirstOccurrence (l.filter (fun x => x ∉ seen)) := by
  induction l with
  | nil => intro seen; simp [dedupCitationsGo, keepFirstOccurrence]
  | cons c rest ih =>
    intro seen
    by_cases hc : c ∈ seen
    · rw [dedupCitationsGo, if_pos hc, ih seen]
      congr 1
      simp [List.filter_cons, hc]
    · rw [dedupCitationsGo, if_neg hc]
      have hfc : (c :: rest).filter (fun x => decide (x ∉ seen)) =
          c :: rest.filter (fun x => decide (x ∉ seen)) := by
        simp [List.filter_cons, hc]
      rw [hfc, keepFirstOccurrence, ih (c :: seen)]
      have harg : rest.filter (fun x => decide (x ∉ c :: seen)) =
          (rest.filter (fun x => decide (x ∉ seen))).filter (fun x => decide (x ≠ c)) := by
        rw [List.filter_filter]
        apply List.filter_congr
        intro x _
        by_cases h1 : x = c
        · simp [h1]
        · by_cases h2 : x ∈ seen <;> simp [h1, h2]
      rw [harg]

theorem mem_keepFirstOccurrence (u : List Char) (l : List (List Char)) :
    u ∈ keepFirstOccurrence l ↔ u ∈ l := by
  induction l using keepFirstOccurrence.induct with
  | case1 => simp [keepFirstOccurrence]
  | case2 c rest ih =>
    rw [keepFirstOccurrence]
    simp only [List.mem_cons, ih, List.mem_filter, decide_eq_true_eq]
    constructor
    · rintro (h | ⟨h, _⟩)
      · exact Or.inl h
      · exact Or.inr h
    · rintro (h | h)
      · exact Or.inl h
      · by_cases hc : u = c
        · exact Or.inl hc
        · exact Or.inr ⟨h, hc⟩

theorem nodup_keepFirstOccurrence (l : List (List Char)) :
    (keepFirstOccurrence l).Nodup := by
  induction l using keepFirstOccurrence.induct with
  | case1 => simp [keepFirstOccurrence]
  | case2 c rest ih =>
    rw [keepFirstOccurrence]
    refine List.nodup_cons.mpr ⟨?_, ih⟩
    intro hmem
    have := (mem_keepFirstOccurrence c _).mp hmem
    simp at this

/-- C7: the orchestrator's citation deduplication keeps exactly one occurrence
of each distinct URL, positioned by its first occurrence in the input
(it coincides with the canonical first-occurrence dedup, its output has no
duplicates, and it preserves membership), and on
`["https://a.it/x","https://a.it/x","https://b.it/y"]` it yields
`["https://a.it/x","https://b.it/y"]` in that order. -/
theorem generate_feed_citation_dedup :
    (∀ l : List (List Char),
      dedupCitations l = keepFirstOccurrence l ∧
      (dedupCitations l).Nodup ∧
      ∀ u, u ∈ dedupCitations l ↔ u ∈ l) ∧
    dedupCitations
        [chars "https://a.it/x", chars "https://a.it/x", chars "https://b.it/y"] =
      [chars "https://a.it/x", chars "https://b.it/y"] := by
  have key : ∀ l : List (List Char), dedupCitations l = keepFirstOccurrence l := by
    intro l
    rw [dedupCitations, dedupCitationsGo_eq_keepFirst]
    congr 1
    simp
  refine ⟨fun l => ⟨key l, ?_, ?_⟩, ?_⟩
  · rw [key l]
    exact nodup_keepFirstOccurrence l
  · intro u
    rw [key l]
    exact mem_keepFirstOccurrence u l
  · decide

/-! ## URL domain extraction (`get_domain`, news_utils.py lines 11-20)

`urllib.parse.urlparse(url).netloc` is the substring between the `//` that
follows an optional `scheme:` and the next `/`, `?` or `#`; a leading
`www.` is then stripped. -/

/-- A character allowed in a URL scheme (letters, digits, `+`, `-`, `.`). -/
def isSchemeChar (c : Char) : Bool :=
  c.isAlpha || c.isDigit || c == '+' || c == '-' || c == '.'

/-- The part of the URL after its `scheme:`, if a well-formed scheme is
present (mirrors `urllib.parse.urlsplit`'s scheme detection). -/
def restAfterScheme (url : List Char) : List Char :=
  let pre := url.takeWhile (fun c => c ≠ ':')
  if pre.length < url.length && !pre.isEmpty &&
      (pre.headD 'a').isAlpha && pre.all isSchemeChar then
    url.drop (pre.length + 1)
  else url

/-- Model of `get_domain` (news_utils.py 11-20). -/
def getDomain (url : List Char) : List Char :=
  let rest := restAfterScheme url
  let netloc :=
    if (chars "//").isPrefixOf rest then
      (rest.drop 2).takeWhile (fun c => c ≠ '/' && c ≠ '?' && c ≠ '#')
    else []
  if (chars "www.").isPrefixOf netloc then netloc.drop 4 else netloc

/-! ## Citation filtering (`filter_citations`, news_search.py lines 698-757) -/

/-- The video URL patterns of `filter_citations`. -/
def videoPatterns : List (List Char) :=
  [chars "/video/", chars "/video-", chars "-video", chars "video.",
   chars "youtube.com", chars "youtu.be", chars "vimeo.com",
   chars "dailymotion.com", chars "/watch/", chars "/embed/"]

/-- The live URL patterns of `filter_citations`. -/
def livePatterns : List (List Char) :=
  [chars "/diretta/", chars "-diretta", chars "diretta-", chars "/live/",
   chars "-live", chars "live-", chars "/tempo-reale/", chars "real-time",
   chars "/liveblog/", chars "live-blog", chars "/minuto-per-minuto/"]

/-- `all_patterns = video_patterns + live_patterns`. -/
def allPatterns : List (List Char) := videoPatterns ++ livePatterns

/-- `is_video_or_live`: the URL's lowercase form contains some pattern. -/
def isVideoOrLive (url : List Char) : Bool :=
  allPatterns.any (fun p => containsSub (lowerS url) p)

/-- One blocked-domain test of `filter_citations`: exact match, dot-suffix
match, or substring match against the lowercased blocked entry. -/
def blockedMatches (domain blocked : List Char) : Bool :=
  let bl := lowerS blocked
  domain == bl || ('.' :: bl).isSuffixOf domain || containsSub domain bl

/-- The first blocked domain matched by the loop in `filter_citations`
(`matched_blocked`), if any. -/
def matchedBlocked (domain : List Char) (blockedDomains : List (List Char)) :
    Option (List Char) :=
  blockedDomains.find? (fun b => blockedMatches domain b)

/-- Whether `filter_citations` removes this URL (video/live pattern, or a
blocked-domain match). -/
def citationRemoved (url : List Char) (blockedDomains : List (List Char)) : Bool :=
  isVideoOrLive url ||
    (matchedBlocked (lowerS (getDomain url)) blockedDomains).isSome

/-- The removal reason recorded by `filter_citations` for a removed URL. -/
def removalReason (url : List Char) (blockedDomains : List (List Char)) :
    List Char :=
  if isVideoOrLive url then chars "video/live"
  else
    match matchedBlocked (lowerS (getDomain url)) blockedDomains with
    | some b => chars "blocked domain (" ++ b ++ chars ")"
    | none => []

/-- Model of `filter_citations` (news_search.py 698-757): returns the pair
`(filtered, removed-with-reason)`, both in input order. -/
def filterCitations (citations : List (List Char))
    (blockedDomains : List (List Char)) :
    List (List Char) × List (List Char × List Char) :=
  match citations with
  | [] => ([], [])
  | url :: rest =>
    let tail := filterCitations rest blockedDomains
    if citationRemoved url blockedDomains then
      (tail.1, (url, removalReason url blockedDomains) :: tail.2)
    else (url :: tail.1, tail.2)

theorem mem_removed_of_citationRemoved
    {url : List Char} {citations blockedDomains : List (List Char)}
    (hmem : url ∈ citations)
    (hrem : citationRemoved url blockedDomains = true) :
    (url, removalReason url blockedDomains) ∈
      (filterCitations citations blockedDomains).2 := by
  induction citations with
  | nil => exact absurd hmem (List.not_mem_nil url)
  | cons c rest ih =>
    rw [filterCitations]
    rcases List.mem_cons.mp hmem with hu | hu
    · subst hu
      rw [if_pos hrem]
      exact List.mem_cons_self _ _
    · by_cases hc : citationRemoved c blockedDomains = true
      · rw [if_pos hc]
        exact List.mem_cons_of_mem _ (ih hu)
      · rw [if_neg hc]
        exact ih hu

/-- C10: `filter_citations` partitions its input — the filtered list is
exactly the input URLs the removal test rejects nothing for, the removed
list's URLs are exactly those it rejects (both in input order, as filters
of the input), and the two lengths sum to the input length. -/
theorem filter_citations_partitions :
    ∀ (citations blockedDomains : List (List Char)),
      (filterCitations citations blockedDomains).1 =
        citations.filter (fun u => !citationRemoved u blockedDomains) ∧
      (filterCitations citations blockedDomains).2.map Prod.fst =
        citations.filter (fun u => citationRemoved u blockedDomains) ∧
      (filterCitations citations blockedDomains).1.length +
        (filterCitations citations blockedDomains).2.length =
        citations.length := by
  intro citations blockedDomains
  induction citations with
  | nil => exact ⟨rfl, rfl, rfl⟩
  | cons c rest ih =>
    obtain ⟨ih1, ih2, ih3⟩ := ih
    rw [filterCitations]
    by_cases hc : citationRemoved c blockedDomains = true
    · rw [if_pos hc]
      refine ⟨?_, ?_, ?_⟩
      · simpa [List.filter_cons, hc] using ih1
      · simpa [List.filter_cons, hc] using ih2
      · simp only [List.length_cons]
        omega
    · rw [if_neg hc]
      rw [Bool.not_eq_true] at hc
      refine ⟨?_, ?_, ?_⟩
      · simpa [List.filter_cons, hc] using ih1
      · simpa [List.filter_cons, hc] using ih2
      · simp only [List.length_cons]
        omega

/-- C8: every input URL whose lowercase form contains `/video/` lands in
`removed` with reason `"video/live"` (this branch wins even if the domain is
also blocked), and every input URL that is not video/live but whose domain
exactly equals a blocked domain lands in `removed` with reason
`"blocked domain (<matched domain>)"`, where the matched domain is the first
blocked entry the domain test accepts. -/
theorem filter_citations_removal_reasons :
    ∀ (citations blockedDomains : List (List Char)) (url : List Char),
      url ∈ citations →
      (containsSub (lowerS url) (chars "/video/") = true →
        (url, chars "video/live") ∈
          (filterCitations citations blockedDomains).2) ∧
      (isVideoOrLive url = false →
        (∃ bd ∈ blockedDomains, lowerS (getDomain url) = lowerS bd) →
        ∃ m, matchedBlocked (lowerS (getDomain url)) blockedDomains = some m ∧
          m ∈ blockedDomains ∧
          blockedMatches (lowerS (getDomain url)) m = true ∧
          (url, chars "blocked domain (" ++ m ++ chars ")") ∈
            (filterCitations citations blockedDomains).2) := by
  intro citations blockedDomains url hmem
  constructor
  · intro hvid
    have hvl : isVideoOrLive url = true := by
      refine List.any_eq_true.mpr ⟨chars "/video/", ?_, hvid⟩
      simp [allPatterns, videoPatterns]
    have hrem : citationRemoved url blockedDomains = true := by
      rw [citationRemoved, hvl, Bool.true_or]
    have := mem_removed_of_citationRemoved hmem hrem
    rwa [removalReason, if_pos hvl] at this
  · intro hnv ⟨bd, hbd, heq⟩
    have hpbd : blockedMatches (lowerS (getDomain url)) bd = true := by
      rw [blockedMatches]
      simp only [Bool.or_eq_true, beq_iff_eq]
      exact Or.inl (Or.inl heq)
    have hsome : (matchedBlocked (lowerS (getDomain url)) blockedDomains).isSome := by
      rw [matchedBlocked, List.find?_isSome]
      exact ⟨bd, hbd, hpbd⟩
    obtain ⟨m, hm⟩ := Option.isSome_iff_exists.mp hsome
    refine ⟨m, hm, List.mem_of_find?_eq_some hm, List.find?_some hm, ?_⟩
    have hrem : citationRemoved url blockedDomains = true := by
      rw [citationRemoved, hm]
      simp
    have := mem_removed_of_citationRemoved hmem hrem
    rwa [removalReason, if_neg (by rw [hnv]; exact Bool.false_ne_true), hm] at this

/-- Witness for C8: on the concrete input
`["https://a.it/video/x", "https://blocked.it/p"]` with blocked list
`["blocked.it"]`, the video URL is removed as `"video/live"` and the
blocked-domain URL is removed with the blocked-domain reason. -/
theorem filter_citations_removal_reasons_witness :
    (chars "https://a.it/video/x", chars "video/live") ∈
      (filterCitations [chars "https://a.it/video/x", chars "https://blocked.it/p"]
        [chars "blocked.it"]).2 ∧
    ∃ m, matchedBlocked (lowerS (getDomain (chars "https://blocked.it/p")))
          [chars "blocked.it"] = some m ∧
        m ∈ [chars "blocked.it"] ∧
        blockedMatches (lowerS (getDomain (chars "https://blocked.it/p"))) m = true ∧
        (chars "https://blocked.it/p", chars "blocked domain (" ++ m ++ chars ")") ∈
          (filterCitations [chars "https://a.it/video/x", chars "https://blocked.it/p"]
            [chars "blocked.it"]).2 :=
  ⟨(filter_citations_removal_reasons
      [chars "https://a.it/video/x", chars "https://blocked.it/p"]
      [chars "blocked.it"] (chars "https://a.it/video/x") (by decide)).1 (by decide),
   (filter_citations_removal_reasons
      [chars "https://a.it/video/x", chars "https://blocked.it/p"]
      [chars "blocked.it"] (chars "https://blocked.it/p") (by decide)).2 (by decide)
      ⟨chars "blocked.it", by decide, by decide⟩⟩

/-! ## Similarity engine (`news_utils.py` lines 120-195) -/

/-- Model of a Python regex `\w` character, ASCII-accurate (non-ASCII code
points are treated as word characters, matching Unicode mode for letters). -/
def isWordChar (c : Char) : Bool := c.isAlphanum || c == '_' || 127 < c.toNat

/-- Whitespace-collapsing pass of `normalize_text` (`re.sub(r'\s+', ' ', .)`);
the flag records whether the previous character was whitespace. -/
def collapseWsAux : List Char → Bool → List Char
  | [], _ => []
  | c :: t, lastWs =>
    if c.isWhitespace then
      if lastWs then collapseWsAux t true else ' ' :: collapseWsAux t true
    else c :: collapseWsAux t false

def collapseWs (l : List Char) : List Char := collapseWsAux l false

/-- Model of Python `str.strip()`. -/
def stripWs (l : List Char) : List Char :=
  ((l.dropWhile Char.isWhitespace).reverse.dropWhile Char.isWhitespace).reverse

/-- Model of `normalize_text` (news_utils.py 120-127): lowercase, replace
non-word non-space characters by spaces, collapse whitespace, strip. -/
def normalizeText (s : List Char) : List Char :=
  if s = [] then []
  else
    stripWs (collapseWs ((lowerS s).map
      (fun c => if isWordChar c || c.isWhitespace then c else ' ')))

/-- Model of Python `str.split()` (split on whitespace runs, no empties);
`acc` accumulates the current word reversed. -/
def splitWsAux : List Char → List Char → List (List Char)
  | [], acc => if acc.isEmpty then [] else [acc.reverse]
  | c :: t, acc =>
    if c.isWhitespace then
      if acc.isEmpty then splitWsAux t [] else acc.reverse :: splitWsAux t []
    else splitWsAux t (c :: acc)

def splitWs (l : List Char) : List (List Char) := splitWsAux l []

/-- The alternatives of the news-prefix regex in `extract_keywords`
(`^(video|foto|gallery|ultim'ora|live|diretta|esclusiva):\s*`, re.I). -/
def newsPrefixes : List (List Char) :=
  [chars "video", chars "foto", chars "gallery",
   chars "ultim" ++ [Char.ofNat 39] ++ chars "ora",
   chars "live", chars "diretta", chars "esclusiva"]

/-- Strip a leading `<alternative>:` plus following whitespace,
case-insensitively (the `re.sub(..., '', text)` in `extract_keywords`). -/
def stripNewsPrefix (l : List Char) : List Char :=
  match newsPrefixes.find? (fun p => (p ++ [':']).isPrefixOf (lowerS l)) with
  | some p => (l.drop (p.length + 1)).dropWhile Char.isWhitespace
  | none => l

/-- The combined IT/EN/ES/FR stop-word set of `extract_keywords`. -/
def stopWords : List (List Char) :=
  [chars "della", chars "delle", chars "dello", chars "degli", chars "nella",
   chars "nelle", chars "nello", chars "negli", chars "come", chars "cosa",
   chars "dove", chars "quando", chars "perché", chars "quale", chars "quali",
   chars "sono", chars "essere", chars "stato", chars "stata", chars "stati",
   chars "state", chars "hanno", chars "avere", chars "fatto", chars "fare",
   chars "dopo", chars "prima", chars "anche", chars "solo", chars "tutto",
   chars "tutti", chars "tutte", chars "ogni", chars "altro", chars "altra",
   chars "altri", chars "altre", chars "questo", chars "questa", chars "questi",
   chars "queste", chars "quello", chars "quella", chars "quelli", chars "quelle",
   chars "aveva", chars "avevano",
   chars "with", chars "from", chars "that", chars "this", chars "have",
   chars "been", chars "will", chars "would", chars "could", chars "should",
   chars "there", chars "their", chars "which", chars "about", chars "other",
   chars "after", chars "before",
   chars "está", chars "este", chars "esta", chars "estos", chars "estas",
   chars "cuando", chars "donde", chars "pero", chars "todo", chars "todos",
   chars "sobre", chars "entre", chars "también",
   chars "dans", chars "avec", chars "pour", chars "plus", chars "cette",
   chars "ceux", chars "elles", chars "tout", chars "tous", chars "faire",
   chars "fait", chars "mais", chars "aussi"]

/-- Model of `extract_keywords` (news_utils.py 129-159). -/
def extractKeywords (text : List Char) (minLength : ℕ := 4) :
    Finset (List Char) :=
  if text = [] then ∅
  else
    ((splitWs (normalizeText (stripNewsPrefix text))).filter
      (fun w => minLength ≤ w.length && !stopWords.contains w)).toFinset

/-- The capitalized-entity set of `calculate_similarity`: keywords that occur
in the original text as a word whose letters are all uppercase
(`c.isupper()` after `normalize_text(c) == w`). -/
def entityKeywords (text : List Char) (kws : Finset (List Char)) :
    Finset (List Char) :=
  kws.filter
    (fun w => ((splitWs text).any
      (fun c => (normalizeText c == w) && pyIsUpper c)) = true)

/-- Model of `calculate_similarity` (news_utils.py 161-195), with Python
floats modelled as rationals. -/
def calculateSimilarity (text1 text2 : List Char)
    (useWeighted : Bool := true) : ℚ :=
  if extractKeywords text1 = ∅ ∨ extractKeywords text2 = ∅ then 0
  else
    if extractKeywords text1 ∪ extractKeywords text2 = ∅ then 0
    else
      if !useWeighted then
        ((extractKeywords text1 ∩ extractKeywords text2).card : ℚ) /
          ((extractKeywords text1 ∪ extractKeywords text2).card : ℚ)
      else
        if entityKeywords text1 (extractKeywords text1) ∩
            entityKeywords text2 (extractKeywords text2) ≠ ∅ then
          min 1
            (((extractKeywords text1 ∩ extractKeywords text2).card : ℚ) /
              ((extractKeywords text1 ∪ extractKeywords text2).card : ℚ) +
            ((entityKeywords text1 (extractKeywords text1) ∩
              entityKeywords text2 (extractKeywords text2)).card : ℚ) /
              ((extractKeywords text1 ∪ extractKeywords text2).card : ℚ))
        else
          ((extractKeywords text1 ∩ extractKeywords text2).card : ℚ) /
            ((extractKeywords text1 ∪ extractKeywords text2).card : ℚ)

/-- C5: `calculate_similarity` is symmetric in its two texts, for both the
weighted (capitalized-entity bonus) and unweighted variants. -/
theorem calculate_similarity_symm :
    ∀ (useWeighted : Bool) (a b : List Char),
      calculateSimilarity a b useWeighted = calculateSimilarity b a useWeighted := by
  intro w a b
  simp only [calculateSimilarity]
  rw [Finset.inter_comm (extractKeywords a), Finset.union_comm (extractKeywords a),
    Finset.inter_comm (entityKeywords a (extractKeywords a))]
  exact if_congr or_comm rfl rfl

/-! ## Clustering engine (`news_search.py` lines 501-623) -/

/-- A NewsItem as produced by extraction: title, link, snippet, source
domain (all Python strings). -/
structure NewsItem where
  title : List Char
  link : List Char
  snippet : List Char
  sourceDomain : List Char
deriving DecidableEq

/-- The `skip_patterns` denylist of `is_valid_news_title`. -/
def skipPatterns : List (List Char) :=
  [chars "password", chars "login", chars "registra", chars "accedi",
   chars "iscriviti", chars "cookie", chars "privacy", chars "termini",
   chars "condizioni", chars "contatti", chars "about", chars "chi siamo",
   chars "redazione", chars "pubblicità", chars "advertising",
   chars "newsletter", chars "archivio", chars "categori", chars "cerca",
   chars "search", chars "risultati ricerca", chars "home page",
   chars "homepage", chars "menu", chars "seguici", chars "social",
   chars "facebook", chars "twitter", chars "instagram", chars "copyright",
   chars "tutti i diritti", chars "all rights", chars "scopri di più",
   chars "leggi tutto", chars "read more", chars "continua a leggere",
   chars "vedi tutti", chars "mostra tutto", chars "visualizza",
   chars "comunicati", chars "press release", chars "offerta", chars "promo",
   chars "sconto", chars "gratis", chars "abbonamento", chars "abbonati",
   chars "prova gratuita", chars "trial", chars "decoder", chars "smart tv",
   chars "sky glass", chars "sky stream", chars "lotto", chars "superenalotto",
   chars "estrazion", chars "jackpot", chars "oroscopo", chars "meteo",
   chars "previsioni tempo", chars "ricetta", chars "ricette"]

/-- Model of `is_valid_news_title` (news_search.py 501-543): non-empty, no
denylist pattern in the lowercase title, and at least 3 words longer than
2 characters. -/
def isValidNewsTitle (title : List Char) : Bool :=
  if title = [] then false
  else if skipPatterns.any (fun p => containsSub (lowerS title) p) then false
  else decide (3 ≤ ((splitWs title).filter (fun w => 2 < w.length)).length)

/-- The comparison text used by clustering: `item['title'] + " " +
item.get('snippet', '')`. -/
def itemText (item : NewsItem) : List Char :=
  item.title ++ [' '] ++ item.snippet

/-- Inner absorption loop of `cluster_news_by_similarity`: scan every
enumerated item, absorbing unconsumed ones whose similarity to the seed text
reaches the threshold. Returns the absorbed items and the updated `used`
index set (a list models the Python set: membership and insertion only). -/
def absorbGo (θ : ℚ) (seedText : List Char) :
    List (ℕ × NewsItem) → List ℕ → List NewsItem × List ℕ
  | [], used => ([], used)
  | (j, other) :: rest, used =>
    if j ∈ used then absorbGo θ seedText rest used
    else if θ ≤ calculateSimilarity seedText (itemText other) then
      let res := absorbGo θ seedText rest (j :: used)
      (other :: res.1, res.2)
    else absorbGo θ seedText rest used

/-- Outer loop of `cluster_news_by_similarity`: each unconsumed item seeds a
new cluster and absorbs over the full enumeration. -/
def outerGo (θ : ℚ) (enumItems : List (ℕ × NewsItem)) :
    List (ℕ × NewsItem) → List ℕ → List (List NewsItem)
  | [], _ => []
  | (i, item) :: rest, used =>
    if i ∈ used then outerGo θ enumItems rest used
    else
      let res := absorbGo θ (itemText item) enumItems (i :: used)
      (item :: res.1) :: outerGo θ enumItems rest res.2

/-- Model of `cluster_news_by_similarity` (news_search.py 569-623): drop
invalid titles, greedily cluster by seed order, sort by descending size
(`clusters.sort(key=len, reverse=True)`, a stable descending sort). -/
def clusterNewsBySimilarity (newsItems : List NewsItem)
    (θ : ℚ := 1/4) : List (List NewsItem) :=
  if newsItems = [] then []
  else
    let valid := newsItems.filter (fun it => isValidNewsTitle it.title)
    if valid = [] then []
    else
      (outerGo θ valid.enum valid.enum []).mergeSort
        (fun a b => b.length ≤ a.length)

/-- Index-nodup lists of pairs are determined by their first component. -/
theorem eq_of_fst_eq_of_nodup {l : List (ℕ × NewsItem)}
    (hnd : (l.map Prod.fst).Nodup) {p q : ℕ × NewsItem}
    (hp : p ∈ l) (hq : q ∈ l) (h : p.1 = q.1) : p = q := by
  induction l with
  | nil => exact absurd hp (List.not_mem_nil p)
  | cons a t ih =>
    rw [List.map_cons, List.nodup_cons] at hnd
    rcases List.mem_cons.mp hp with hp1 | hp1 <;>
      rcases List.mem_cons.mp hq with hq1 | hq1
    · rw [hp1, hq1]
    · exfalso
      apply hnd.1
      rw [← hp1, h]
      exact List.mem_map_of_mem Prod.fst hq1
    · exfalso
      apply hnd.1
      rw [← hq1, ← h]
      exact List.mem_map_of_mem Prod.fst hp1
    · exact ih hnd.2 hp1 hq1

theorem absorbGo_fst (θ : ℚ) (s : List Char) :
    ∀ (l : List (ℕ × NewsItem)) (used : List ℕ),
      (l.map Prod.fst).Nodup →
      (absorbGo θ s l used).1 =
        (l.filter (fun p => !decide (p.1 ∈ used) &&
          decide (θ ≤ calculateSimilarity s (itemText p.2)))).map Prod.snd := by
  intro l
  induction l with
  | nil => intro used _; rfl
  | cons hd rest ih =>
    obtain ⟨j, other⟩ := hd
    intro used hnd
    rw [List.map_cons, List.nodup_cons] at hnd
    by_cases hj : j ∈ used
    · rw [absorbGo, if_pos hj, List.filter_cons]
      simp only [hj, decide_True, Bool.not_true, Bool.false_and,
        Bool.false_eq_true, if_false]
      exact ih used hnd.2
    · by_cases hsim : θ ≤ calculateSimilarity s (itemText other)
      · rw [absorbGo, if_neg hj, if_pos hsim]
        have heq : rest.filter (fun p => !decide (p.1 ∈ j :: used) &&
              decide (θ ≤ calculateSimilarity s (itemText p.2))) =
            rest.filter (fun p => !decide (p.1 ∈ used) &&
              decide (θ ≤ calculateSimilarity s (itemText p.2))) := by
          apply List.filter_congr
          intro p hp
          have hne : p.1 ≠ j := by
            intro hcon
            have hmm : p.1 ∈ List.map Prod.fst rest :=
              List.mem_map_of_mem Prod.fst hp
            rw [hcon] at hmm
            exact hnd.1 hmm
          simp [List.mem_cons, hne]
        simp only [List.filter_cons, hj, hsim]
        simp only [ih (j :: used) hnd.2, heq]
        simp [hj, hsim]
      · rw [absorbGo, if_neg hj, if_neg hsim, List.filter_cons]
        simp only [hsim, decide_False, Bool.and_false, Bool.false_eq_true,
          if_false]
        exact ih used hnd.2

theorem absorbGo_snd_mem (θ : ℚ) (s : List Char) :
    ∀ (l : List (ℕ × NewsItem)) (used : List ℕ) (j : ℕ),
      (j ∈ (absorbGo θ s l used).2 ↔
        j ∈ used ∨ ∃ p ∈ l, p.1 = j ∧ p.1 ∉ used ∧
          θ ≤ calculateSimilarity s (itemText p.2)) := by
  intro l
  induction l with
  | nil =>
    intro used j
    simp [absorbGo]
  | cons hd rest ih =>
    obtain ⟨j0, other⟩ := hd
    intro used j
    by_cases hj0 : j0 ∈ used
    · rw [absorbGo, if_pos hj0, ih used j]
      constructor
      · rintro (h | ⟨p, hp, h1, h2, h3⟩)
        · exact Or.inl h
        · exact Or.inr ⟨p, List.mem_cons_of_mem _ hp, h1, h2, h3⟩
      · rintro (h | ⟨p, hp, h1, h2, h3⟩)
        · exact Or.inl h
        · rcases List.mem_cons.mp hp with hp1 | hp1
          · exact absurd (hp1 ▸ hj0 : p.1 ∈ used) h2
          · exact Or.inr ⟨p, hp1, h1, h2, h3⟩
    · by_cases hsim : θ ≤ calculateSimilarity s (itemText other)
      · rw [absorbGo, if_neg hj0, if_pos hsim]
        simp only []
        rw [ih (j0 :: used) j]
        constructor
        · rintro (h | ⟨p, hp, h1, h2, h3⟩)
          · rcases List.mem_cons.mp h with h | h
            · exact Or.inr ⟨(j0, other), List.mem_cons_self _ _, h.symm, hj0, hsim⟩
            · exact Or.inl h
          · have h2' : p.1 ∉ used := fun hc => h2 (List.mem_cons_of_mem _ hc)
            exact Or.inr ⟨p, List.mem_cons_of_mem _ hp, h1, h2', h3⟩
        · rintro (h | ⟨p, hp, h1, h2, h3⟩)
          · exact Or.inl (List.mem_cons_of_mem _ h)
          · rcases List.mem_cons.mp hp with hp1 | hp1
            · left
              rw [← h1, hp1]
              exact List.mem_cons_self _ _
            · by_cases hji : p.1 ∈ j0 :: used
              · rcases List.mem_cons.mp hji with hc | hc
                · left
                  rw [← h1, hc]
                  exact List.mem_cons_self _ _
                · exact absurd hc h2
              · exact Or.inr ⟨p, hp1, h1, hji, h3⟩
      · rw [absorbGo, if_neg hj0, if_neg hsim, ih used j]
        constructor
        · rintro (h | ⟨p, hp, h1, h2, h3⟩)
          · exact Or.inl h
          · exact Or.inr ⟨p, List.mem_cons_of_mem _ hp, h1, h2, h3⟩
        · rintro (h | ⟨p, hp, h1, h2, h3⟩)
          · exact Or.inl h
          · rcases List.mem_cons.mp hp with hp1 | hp1
            · rw [hp1] at h3
              exact absurd h3 hsim
            · exact Or.inr ⟨p, hp1, h1, h2, h3⟩

theorem filter_fst_eq {l : List (ℕ × NewsItem)}
    (hnd : (l.map Prod.fst).Nodup) {i : ℕ} {x : NewsItem}
    (hmem : (i, x) ∈ l) :
    l.filter (fun p => decide (p.1 = i)) = [(i, x)] := by
  induction l with
  | nil => exact absurd hmem (List.not_mem_nil _)
  | cons a t ih =>
    rw [List.map_cons, List.nodup_cons] at hnd
    by_cases ha : a.1 = i
    · have hax : a = (i, x) := by
        rcases List.mem_cons.mp hmem with h | h
        · exact h.symm
        · exfalso
          apply hnd.1
          have : (i, x).1 ∈ List.map Prod.fst t := List.mem_map_of_mem Prod.fst h
          rw [ha]
          exact this
      have ht : t.filter (fun p => decide (p.1 = i)) = [] := by
        apply List.filter_eq_nil_iff.mpr
        intro p hp
        simp only [decide_eq_true_eq]
        intro hpi
        apply hnd.1
        have : p.1 ∈ List.map Prod.fst t := List.mem_map_of_mem Prod.fst hp
        rw [ha, ← hpi]
        exact this
      rw [List.filter_cons, if_pos (by simpa using ha), ht, hax]
    · have hx : (i, x) ∈ t := by
        rcases List.mem_cons.mp hmem with h | h
        · exact absurd (congrArg Prod.fst h.symm) ha
        · exact h
      rw [List.filter_cons, if_neg (by simpa using ha)]
      exact ih hnd.2 hx

theorem outerGo_flatten_perm (θ : ℚ) (enumItems : List (ℕ × NewsItem))
    (hnd : (enumItems.map Prod.fst).Nodup) :
    ∀ (l : List (ℕ × NewsItem)) (used : List ℕ),
      (∀ p ∈ enumItems, p.1 ∉ used → p ∈ l) →
      (∀ p ∈ l, p ∈ enumItems) →
      List.Perm ((outerGo θ enumItems l used).flatten)
        ((enumItems.filter (fun p => !decide (p.1 ∈ used))).map Prod.snd) := by
  intro l
  induction l with
  | nil =>
    intro used hcov _
    have hemp : enumItems.filter (fun p => !decide (p.1 ∈ used)) = [] := by
      apply List.filter_eq_nil_iff.mpr
      intro p hp
      simp only [Bool.not_eq_true', decide_eq_false_iff_not, not_not]
      by_contra hni
      exact absurd (hcov p hp hni) (List.not_mem_nil p)
    rw [hemp]
    simp [outerGo]
  | cons hd rest ih =>
    obtain ⟨i, item⟩ := hd
    intro used hcov hsub
    by_cases hi : i ∈ used
    · rw [outerGo, if_pos hi]
      apply ih used
      · intro p hp hpu
        rcases List.mem_cons.mp (hcov p hp hpu) with h | h
        · exfalso
          rw [h] at hpu
          exact hpu hi
        · exact h
      · intro p hp
        exact hsub p (List.mem_cons_of_mem _ hp)
    · rw [outerGo, if_neg hi]
      have hmemI : (i, item) ∈ enumItems := hsub _ (List.mem_cons_self _ _)
      have h1 : (absorbGo θ (itemText item) enumItems (i :: used)).1 =
          (enumItems.filter (fun p => !decide (p.1 ∈ i :: used) &&
            decide (θ ≤ calculateSimilarity (itemText item) (itemText p.2)))).map
            Prod.snd :=
        absorbGo_fst θ (itemText item) enumItems (i :: used) hnd
      have hcov2 : ∀ p ∈ enumItems,
          p.1 ∉ (absorbGo θ (itemText item) enumItems (i :: used)).2 → p ∈ rest := by
        intro p hp hpu
        have hpu2 : p.1 ∉ i :: used := fun hc =>
          hpu ((absorbGo_snd_mem θ (itemText item) enumItems (i :: used) p.1).mpr
            (Or.inl hc))
        have hpl := hcov p hp (fun hc => hpu2 (List.mem_cons_of_mem _ hc))
        rcases List.mem_cons.mp hpl with h | h
        · exfalso
          apply hpu2
          rw [h]
          exact List.mem_cons_self _ _
        · exact h
      have hflat := ih (absorbGo θ (itemText item) enumItems (i :: used)).2 hcov2
        (fun p hp => hsub p (List.mem_cons_of_mem _ hp))
      -- Split the target filter into: seed, absorbed now, left for later.
      have e1 : (enumItems.filter (fun p => !decide (p.1 ∈ used))).filter
          (fun p => decide (p.1 = i)) = [(i, item)] := by
        rw [List.filter_filter]
        have : enumItems.filter (fun p => decide (p.1 = i) && !decide (p.1 ∈ used)) =
            enumItems.filter (fun p => decide (p.1 = i)) := by
          apply List.filter_congr
          intro p _
          by_cases hpi : p.1 = i
          · simp [hpi, hi]
          · simp [hpi]
        rw [this]
        exact filter_fst_eq hnd hmemI
      have e3 : ((enumItems.filter (fun p => !decide (p.1 ∈ used))).filter
            (fun p => !decide (p.1 = i))).filter
            (fun p => decide (θ ≤ calculateSimilarity (itemText item) (itemText p.2))) =
          enumItems.filter (fun p => !decide (p.1 ∈ i :: used) &&
            decide (θ ≤ calculateSimilarity (itemText item) (itemText p.2))) := by
        rw [List.filter_filter, List.filter_filter]
        apply List.filter_congr
        intro p _
        by_cases hU : p.1 ∈ used
        · simp [hU]
        · by_cases hI : p.1 = i
          · simp [hU, hI]
          · simp [hU, hI]
      have e4 : ((enumItems.filter (fun p => !decide (p.1 ∈ used))).filter
            (fun p => !decide (p.1 = i))).filter
            (fun p => !decide (θ ≤ calculateSimilarity (itemText item) (itemText p.2))) =
          enumItems.filter
            (fun p => !decide (p.1 ∈ (absorbGo θ (itemText item) enumItems (i :: used)).2)) := by
        rw [List.filter_filter, List.filter_filter]
        apply List.filter_congr
        intro p hp
        have hmem2 := absorbGo_snd_mem θ (itemText item) enumItems (i :: used) p.1
        by_cases hU : p.1 ∈ used
        · have : p.1 ∈ (absorbGo θ (itemText item) enumItems (i :: used)).2 :=
            hmem2.mpr (Or.inl (List.mem_cons_of_mem _ hU))
          simp [hU, this]
        · by_cases hI : p.1 = i
          · have hin : p.1 ∈ (absorbGo θ (itemText item) enumItems (i :: used)).2 :=
              hmem2.mpr (Or.inl (by rw [hI]; exact List.mem_cons_self _ _))
            rw [hI] at hin
            simp [hU, hI, hin]
          · by_cases hS : θ ≤ calculateSimilarity (itemText item) (itemText p.2)
            · have : p.1 ∈ (absorbGo θ (itemText item) enumItems (i :: used)).2 :=
                hmem2.mpr (Or.inr ⟨p, hp, rfl,
                  (by simp [hI, hU] : p.1 ∉ i :: used), hS⟩)
              simp [hU, hI, hS, this]
            · have hnotin : p.1 ∉ (absorbGo θ (itemText item) enumItems (i :: used)).2 := by
                intro hin
                rcases hmem2.mp hin with hin1 | ⟨q, hq, hq1, _, hq3⟩
                · rcases List.mem_cons.mp hin1 with h | h
                  · exact hI h
                  · exact hU h
                · have hqp : q = p := eq_of_fst_eq_of_nodup hnd hq hp hq1
                  rw [hqp] at hq3
                  exact hS hq3
              simp [hU, hI, hS, hnotin]
      show List.Perm
        (((item :: (absorbGo θ (itemText item) enumItems (i :: used)).1) ::
          outerGo θ enumItems rest
            (absorbGo θ (itemText item) enumItems (i :: used)).2).flatten)
        ((enumItems.filter (fun p => !decide (p.1 ∈ used))).map Prod.snd)
      apply List.Perm.symm
      have step1 : List.Perm
          ((enumItems.filter (fun p => !decide (p.1 ∈ used))).map Prod.snd)
          (((enumItems.filter (fun p => !decide (p.1 ∈ used))).filter
              (fun p => decide (p.1 = i)) ++
            (enumItems.filter (fun p => !decide (p.1 ∈ used))).filter
              (fun p => !decide (p.1 = i))).map Prod.snd) :=
        ((List.filter_append_perm _ _).symm).map Prod.snd
      have step2 : (((enumItems.filter (fun p => !decide (p.1 ∈ used))).filter
              (fun p => decide (p.1 = i)) ++
            (enumItems.filter (fun p => !decide (p.1 ∈ used))).filter
              (fun p => !decide (p.1 = i))).map Prod.snd) =
          item :: ((enumItems.filter (fun p => !decide (p.1 ∈ used))).filter
              (fun p => !decide (p.1 = i))).map Prod.snd := by
        rw [List.map_append, e1]
        rfl
      have step3 : List.Perm
          (((enumItems.filter (fun p => !decide (p.1 ∈ used))).filter
              (fun p => !decide (p.1 = i))).map Prod.snd)
          ((((enumItems.filter (fun p => !decide (p.1 ∈ used))).filter
              (fun p => !decide (p.1 = i))).filter
                (fun p => decide (θ ≤ calculateSimilarity (itemText item) (itemText p.2))) ++
            ((enumItems.filter (fun p => !decide (p.1 ∈ used))).filter
              (fun p => !decide (p.1 = i))).filter
                (fun p => !decide (θ ≤ calculateSimilarity (itemText item) (itemText p.2)))).map
              Prod.snd) :=
        ((List.filter_append_perm _ _).symm).map Prod.snd
      have step4 : ((((enumItems.filter (fun p => !decide (p.1 ∈ used))).filter
              (fun p => !decide (p.1 = i))).filter
                (fun p => decide (θ ≤ calculateSimilarity (itemText item) (itemText p.2))) ++
            ((enumItems.filter (fun p => !decide (p.1 ∈ used))).filter
              (fun p => !decide (p.1 = i))).filter
                (fun p => !decide (θ ≤ calculateSimilarity (itemText item) (itemText p.2)))).map
              Prod.snd) =
          (absorbGo θ (itemText item) enumItems (i :: used)).1 ++
            (enumItems.filter
              (fun p => !decide (p.1 ∈ (absorbGo θ (itemText item) enumItems (i :: used)).2))).map
              Prod.snd := by
        rw [List.map_append, e3, e4, h1]
      have step5 : List.Perm
          ((absorbGo θ (itemText item) enumItems (i :: used)).1 ++
            (enumItems.filter
              (fun p => !decide (p.1 ∈ (absorbGo θ (itemText item) enumItems (i :: used)).2))).map
              Prod.snd)
          ((absorbGo θ (itemText item) enumItems (i :: used)).1 ++
            (outerGo θ enumItems rest
              (absorbGo θ (itemText item) enumItems (i :: used)).2).flatten) :=
        List.Perm.append_left _ hflat.symm
      have hfinal := (step2 ▸ step1).trans
        (List.Perm.cons item ((step4 ▸ step3).trans step5))
      simpa [List.flatten_cons] using hfinal

theorem outerGo_ne_nil (θ : ℚ) (enumItems : List (ℕ × NewsItem)) :
    ∀ (l : List (ℕ × NewsItem)) (used : List ℕ) (c : List NewsItem),
      c ∈ outerGo θ enumItems l used → c ≠ [] := by
  intro l
  induction l with
  | nil =>
    intro used c hc
    simp [outerGo] at hc
  | cons hd rest ih =>
    obtain ⟨i, item⟩ := hd
    intro used c hc
    by_cases hi : i ∈ used
    · rw [outerGo, if_pos hi] at hc
      exact ih used c hc
    · rw [outerGo, if_neg hi] at hc
      rcases List.mem_cons.mp hc with h | h
      · rw [h]
        simp
      · exact ih _ c h

/-- C2: clustering partitions its valid-title input — the concatenation of
all returned clusters is a permutation of the sublist of input items whose
title passes `is_valid_news_title` (so no valid item is omitted or
duplicated beyond its input multiplicity, and no invalid item appears), and
every returned cluster is non-empty. -/
theorem cluster_news_partitions :
    ∀ (newsItems : List NewsItem) (θ : ℚ),
      List.Perm ((clusterNewsBySimilarity newsItems θ).flatten)
        (newsItems.filter (fun it => isValidNewsTitle it.title)) ∧
      ∀ c ∈ clusterNewsBySimilarity newsItems θ, c ≠ [] := by
  intro newsItems θ
  by_cases h0 : newsItems = []
  · subst h0
    constructor
    · simp [clusterNewsBySimilarity]
    · intro c hc
      simp [clusterNewsBySimilarity] at hc
  · by_cases h1 : newsItems.filter (fun it => isValidNewsTitle it.title) = []
    · constructor
      · rw [clusterNewsBySimilarity, if_neg h0]
        simp only [h1]
        simp
      · intro c hc
        rw [clusterNewsBySimilarity, if_neg h0] at hc
        simp only [h1] at hc
        simp at hc
    · have hcl : clusterNewsBySimilarity newsItems θ =
          (outerGo θ (newsItems.filter (fun it => isValidNewsTitle it.title)).enum
            (newsItems.filter (fun it => isValidNewsTitle it.title)).enum []).mergeSort
            (fun a b => b.length ≤ a.length) := by
        rw [clusterNewsBySimilarity, if_neg h0]
        simp only [h1]
        simp
      have hnd : (((newsItems.filter (fun it => isValidNewsTitle it.title)).enum).map
          Prod.fst).Nodup := List.nodup_enum_map_fst _
      have hperm := outerGo_flatten_perm θ
        (newsItems.filter (fun it => isValidNewsTitle it.title)).enum hnd
        (newsItems.filter (fun it => isValidNewsTitle it.title)).enum []
        (fun p hp _ => hp) (fun p hp => hp)
      have hfe : ((newsItems.filter (fun it => isValidNewsTitle it.title)).enum).filter
          (fun p => !decide (p.1 ∈ ([] : List ℕ))) =
          (newsItems.filter (fun it => isValidNewsTitle it.title)).enum := by
        simp
      rw [hfe, List.enum_map_snd] at hperm
      constructor
      · rw [hcl]
        exact ((List.mergeSort_perm _ _).flatten).trans hperm
      · intro c hc
        rw [hcl] at hc
        exact outerGo_ne_nil θ _ _ [] c (List.mem_mergeSort.mp hc)

/-! ## Resilient HTTP client (`openrouter_client.py` lines 100-134)

The backend is modelled as a script mapping the attempt index to the outcome
of that HTTP request and the parsed JSON body; backoff sleeping is timing
only and does not affect the result, so it is not modelled. -/

/-- The parsed JSON body of a response: an optional `error` object (present
iff the body contains a truthy `error`, carrying its optional `message`),
and an optional top-level `message` field. -/
structure ORBody where
  err : Option (Option (List Char))
  msg : Option (List Char)
deriving DecidableEq

/-- The typed error `OpenRouterError(message, status=..., payload=...)`. -/
structure OpenRouterError where
  message : List Char
  status : Option ℕ
  payload : ORBody
deriving DecidableEq

/-- One scripted HTTP attempt: a non-error response with parsed body, an
`HTTPError` with status and parsed error payload, or a `URLError`. -/
inductive HttpAttempt where
  | success (status : ℕ) (body : ORBody)
  | httpError (status : ℕ) (payload : ORBody)
  | netError
deriving DecidableEq

/-- The transient statuses retried by `_post_json`: `(429, 500, 502, 503, 504)`. -/
def retryableStatus (s : ℕ) : Bool :=
  s == 429 || s == 500 || s == 502 || s == 503 || s == 504

/-- Decimal rendering of a status code (models `str(e)` content). -/
def natToChars (n : ℕ) : List Char := Nat.toDigits 10 n

/-- Model of `OpenRouterClient._error_message(payload, fallback)`. -/
def errorMessageOf (payload : ORBody) (fallback : List Char) : List Char :=
  match payload.err with
  | some mo =>
    match mo with
    | some m => if m = [] then fallback else m
    | none => fallback
  | none =>
    match payload.msg with
    | some m => if m = [] then fallback else m
    | none => fallback

/-- The fallback message for an `HTTPError` (models `str(e)`). -/
def httpFallbackMsg (status : ℕ) : List Char :=
  chars "HTTP Error " ++ natToChars status

/-- The retry loop of `_post_json` (`for attempt in range(max_retries+1)`),
explicit in the attempt index, remaining fuel (`max_retries + 1 - attempt`)
and `last_err`. Returns the result together with the number of HTTP
requests issued. -/
def postJsonGo (maxRetries : ℕ) (backend : ℕ → HttpAttempt) :
    ℕ → ℕ → Option OpenRouterError → Except OpenRouterError ORBody × ℕ
  | _, 0, lastErr =>
    (Except.error (lastErr.getD ⟨chars "Unknown error", none, ⟨none, none⟩⟩), 0)
  | attempt, fuel + 1, _ =>
    match backend attempt with
    | .success status body =>
      match body.err with
      | some mo =>
        (Except.error ⟨mo.getD (chars "OpenRouter error"), some status, body⟩, 1)
      | none => (Except.ok body, 1)
    | .httpError status payload =>
      let e : OpenRouterError :=
        ⟨errorMessageOf payload (httpFallbackMsg status), some status, payload⟩
      if attempt < maxRetries && retryableStatus status then
        let r := postJsonGo maxRetries backend (attempt + 1) fuel (some e)
        (r.1, r.2 + 1)
      else (Except.error e, 1)
    | .netError =>
      let e : OpenRouterError := ⟨chars "Network error", none, ⟨none, none⟩⟩
      if attempt < maxRetries then
        let r := postJsonGo maxRetries backend (attempt + 1) fuel (some e)
        (r.1, r.2 + 1)
      else (Except.error e, 1)

/-- Model of `OpenRouterClient._post_json` against a scripted backend. -/
def postJson (maxRetries : ℕ) (backend : ℕ → HttpAttempt) :
    Except OpenRouterError ORBody × ℕ :=
  postJsonGo maxRetries backend 0 (maxRetries + 1) none

/-- A mock backend answering 503 twice, then a clean 200 response. -/
def backend503Then200 (okBody : ORBody) : ℕ → HttpAttempt
  | 0 => .httpError 503 ⟨none, none⟩
  | 1 => .httpError 503 ⟨none, none⟩
  | _ => .success 200 okBody

/-- A mock backend answering 503 on every attempt. -/
def backendAlways503 : ℕ → HttpAttempt :=
  fun _ => .httpError 503 ⟨none, none⟩

theorem postJsonGo_count_le (m : ℕ) (backend : ℕ → HttpAttempt) :
    ∀ (fuel attempt : ℕ) (le : Option OpenRouterError),
      (postJsonGo m backend attempt fuel le).2 ≤ fuel := by
  intro fuel
  induction fuel with
  | zero => intro attempt le; simp [postJsonGo]
  | succ f ih =>
    intro attempt le
    rw [postJsonGo]
    cases hb : backend attempt with
    | success status body =>
      cases herr : body.err <;> simp [hb, herr]
    | httpError status payload =>
      simp only [hb]
      by_cases hc : (attempt < m && retryableStatus status) = true
      · rw [if_pos hc]
        exact Nat.succ_le_succ (ih (attempt + 1) _)
      · rw [if_neg hc]
        simp
    | netError =>
      simp only [hb]
      by_cases hc : (attempt < m)
      · rw [if_pos (by simpa using hc)]
        exact Nat.succ_le_succ (ih (attempt + 1) _)
      · rw [if_neg (by simpa using hc)]
        simp

theorem always503_go (m : ℕ) :
    ∀ (fuel attempt : ℕ) (le : Option OpenRouterError),
      1 ≤ fuel → attempt + fuel = m + 1 →
      postJsonGo m backendAlways503 attempt fuel le =
        (Except.error ⟨httpFallbackMsg 503, some 503, ⟨none, none⟩⟩, fuel) := by
  intro fuel
  induction fuel with
  | zero => intro attempt le h1 _; omega
  | succ f ih =>
    intro attempt le _ hsum
    rw [postJsonGo]
    cases f with
    | zero =>
      have hatt : attempt = m := by omega
      simp [backendAlways503, hatt, errorMessageOf, postJsonGo]
    | succ f2 =>
      have hlt : attempt < m := by omega
      have hrec := ih (attempt + 1) (some ⟨errorMessageOf ⟨none, none⟩
        (httpFallbackMsg 503), some 503, ⟨none, none⟩⟩) (by omega) (by omega)
      simp only [errorMessageOf] at hrec
      simp [backendAlways503, hlt, retryableStatus, hrec, errorMessageOf]

/-- C3: the retry policy of `_post_json` — a backend returning 503 twice then
a clean 200 succeeds on the third attempt whenever `max_retries ≥ 2`; a
backend returning 503 on every attempt yields the typed error carrying
status 503 after exactly `max_retries + 1` total requests; a first response
with a non-retryable HTTP status errors immediately after a single request;
and no run ever issues more than `max_retries + 1` requests. -/
theorem open_router_retry_policy :
    ∀ m : ℕ, 2 ≤ m →
      (∀ okBody : ORBody, okBody.err = none →
        postJson m (backend503Then200 okBody) = (Except.ok okBody, 3)) ∧
      (postJson m backendAlways503 =
        (Except.error ⟨httpFallbackMsg 503, some 503, ⟨none, none⟩⟩, m + 1)) ∧
      (∀ (s : ℕ) (payload : ORBody) (backend : ℕ → HttpAttempt),
        retryableStatus s = false → backend 0 = .httpError s payload →
        postJson m backend =
          (Except.error ⟨errorMessageOf payload (httpFallbackMsg s), some s,
            payload⟩, 1)) ∧
      (∀ backend : ℕ → HttpAttempt, (postJson m backend).2 ≤ m + 1) := by
  intro m hm
  refine ⟨?_, ?_, ?_, ?_⟩
  · intro okBody hok
    obtain ⟨k, rfl⟩ : ∃ k, m = k + 2 := ⟨m - 2, by omega⟩
    have h0 : (decide (0 < k + 2) && retryableStatus 503) = true := by
      simp [retryableStatus]
    have h1 : (decide (1 < k + 2) && retryableStatus 503) = true := by
      simp [retryableStatus]
    have e0 : backend503Then200 okBody 0 = .httpError 503 ⟨none, none⟩ := rfl
    have e1 : backend503Then200 okBody 1 = .httpError 503 ⟨none, none⟩ := rfl
    have e2 : backend503Then200 okBody 2 = .success 200 okBody := rfl
    rw [postJson]
    rw [postJsonGo]
    simp only [e0, h0, if_true]
    rw [postJsonGo]
    simp only [e1, h1, if_true]
    rw [postJsonGo]
    simp only [e2, hok]
  · exact always503_go m (m + 1) 0 none (by omega) (by omega)
  · intro s payload backend hs hb
    rw [postJson, postJsonGo]
    simp [hb, hs]
  · intro backend
    exact postJsonGo_count_le m backend (m + 1) 0 none

/-- Witness for C3 at `max_retries = 2`, with a clean body, status 400 as the
non-retryable status, and an always-400 backend. -/
theorem open_router_retry_policy_witness :
    postJson 2 (backend503Then200 ⟨none, none⟩) = (Except.ok ⟨none, none⟩, 3) ∧
    postJson 2 backendAlways503 =
      (Except.error ⟨httpFallbackMsg 503, some 503, ⟨none, none⟩⟩, 3) ∧
    postJson 2 (fun _ => .httpError 400 ⟨none, none⟩) =
      (Except.error ⟨errorMessageOf ⟨none, none⟩ (httpFallbackMsg 400), some 400,
        ⟨none, none⟩⟩, 1) :=
  ⟨(open_router_retry_policy 2 (by norm_num)).1 ⟨none, none⟩ rfl,
   (open_router_retry_policy 2 (by norm_num)).2.1,
   (open_router_retry_policy 2 (by norm_num)).2.2.1 400 ⟨none, none⟩
     (fun _ => .httpError 400 ⟨none, none⟩) (by decide) rfl⟩

/-- C6: an HTTP-success response whose JSON body contains an `error` object
is a failure, not a success — `_post_json` raises the typed error carrying
the structured payload and the response's HTTP status, even at status 200,
after that single request. -/
theorem open_router_error_body_is_failure :
    ∀ (m : ℕ) (backend : ℕ → HttpAttempt) (status : ℕ) (body : ORBody)
      (mo : Option (List Char)),
      backend 0 = .success status body → body.err = some mo →
      postJson m backend =
        (Except.error ⟨mo.getD (chars "OpenRouter error"), some status, body⟩, 1) := by
  intro m backend status body mo hb herr
  rw [postJson, postJsonGo]
  simp [hb, herr]

/-- Witness for C6: a single-attempt backend answering HTTP 200 with a body
whose `error.message` is `"bad request"` produces the typed error, not a
success. -/
theorem open_router_error_body_is_failure_witness :
    postJson 2 (fun _ => .success 200 ⟨some (some (chars "bad request")), none⟩) =
      (Except.error ⟨chars "bad request", some 200,
        ⟨some (some (chars "bad request")), none⟩⟩, 1) :=
  open_router_error_body_is_failure 2
    (fun _ => .success 200 ⟨some (some (chars "bad request")), none⟩) 200
    ⟨some (some (chars "bad request")), none⟩ (some (chars "bad request")) rfl rfl

/-! ## Article fetching (`fetch_article_content`, news_utils.py lines 258-313)

The HTTP response and the BeautifulSoup lookups on it are passed in as
data: `none` models a transport exception from `requests.get`, and
`ParsedPage` carries the results of the individual soup queries the
function performs. `format_content_as_html` enters as an explicit function
argument. -/

/-- The article record built by `fetch_article_content`;
`contentTextLength = none` models the `content_text_length` key being
absent from the returned dict. -/
structure Article where
  title : List Char
  subtitle : List Char
  content : List Char
  image : List Char
  link : List Char
  publishedDate : List Char
  sourceDomain : List Char
  author : List Char
  contentTextLength : Option ℕ
deriving DecidableEq

/-- The initial record of `fetch_article_content` (its value on any failed
fetch). -/
def defaultArticle (url : List Char) : Article :=
  ⟨[], [], [], chars "https://via.placeholder.com/300x200?text=No+Image",
   url, [], getDomain url, [], none⟩

/-- One `p`/`div` block found in the content container, as the loop body
sees it. -/
structure ContentBlock where
  isDiv : Bool
  hasNestedP : Bool
  strippedLen : ℕ
  formatted : List Char
deriving DecidableEq

/-- The soup-level lookups of `fetch_article_content` on one page. -/
structure ParsedPage where
  titleText : Option (List Char)
  ogImage : Option (List Char)
  dateCandidates : List (List Char)
  ogDescription : Option (List Char)
  bodyBlocks : Option (List ContentBlock)
deriving DecidableEq

/-- The date-probing loop: first candidate value of length ≥ 10 wins,
truncated to 10 characters. -/
def pickDate : List (List Char) → List Char
  | [] => []
  | v :: rest => if 10 ≤ v.length then v.take 10 else pickDate rest

/-- The content-block loop: skip wrapper `div`s (nested `p`, or stripped
text under 100 chars), keep formatted texts longer than 40 chars, stop at
15 parts. -/
def collectParts : List ContentBlock → List (List Char) → List (List Char)
  | [], acc => acc
  | b :: rest, acc =>
    if b.isDiv && (b.hasNestedP || b.strippedLen < 100) then
      collectParts rest acc
    else
      let acc2 := if b.formatted ≠ [] ∧ 40 < b.formatted.length then
        acc ++ [b.formatted] else acc
      if 15 ≤ acc2.length then acc2 else collectParts rest acc2

/-- `.replace('"', '\\"')` on the raw content. -/
def escapeQuotes (l : List Char) : List Char :=
  (l.map (fun c => if c = '"' then ['\\', '"'] else [c])).flatten

/-- Model of `fetch_article_content` (news_utils.py 258-313). `fetched` is
the outcome of `requests.get`: `none` for a raised exception, otherwise the
status code and the parsed page. -/
def fetchArticleContent (fmt : List Char → List Char) (url : List Char)
    (fetched : Option (ℕ × ParsedPage)) : Article :=
  match fetched with
  | none => defaultArticle url
  | some (status, page) =>
    if status ≠ 200 then defaultArticle url
    else
      let a0 := defaultArticle url
      let title := match page.titleText with
        | some t => t
        | none => a0.title
      let image := match page.ogImage with
        | some im => if im ≠ [] then im else a0.image
        | none => a0.image
      let parts0 := match page.ogDescription with
        | some d => if d ≠ [] then [d] else []
        | none => []
      let parts := match page.bodyBlocks with
        | some blocks => collectParts blocks parts0
        | none => parts0
      let raw := escapeQuotes ((List.intercalate (chars "\n\n") parts).take 3000)
      { a0 with
        title := title, subtitle := title, image := image,
        publishedDate := pickDate page.dateCandidates,
        content := fmt raw, contentTextLength := some raw.length }

/-- The caller-side length (news_search.py line 1184):
`article.get('content_text_length', len(article.get('content', '')))`. -/
def contentLengthForValidation (a : Article) : ℕ :=
  a.contentTextLength.getD a.content.length

/-- C9: `fetch_article_content` soft-fails — on a transport exception or a
non-200 status it returns exactly the default record (empty title, subtitle,
content and date, the placeholder image, the input URL as link,
`get_domain(url)` as source domain) whose `content_text_length` key is
absent; the key is present exactly on a successful 200 fetch-and-parse; and
when the key is absent, the caller's lookup falls back to the length of
`content`. -/
theorem fetch_article_content_soft_fail :
    ∀ (fmt : List Char → List Char) (url : List Char)
      (fetched : Option (ℕ × ParsedPage)),
      ((fetched = none ∨ ∃ s page, fetched = some (s, page) ∧ s ≠ 200) →
        fetchArticleContent fmt url fetched = defaultArticle url ∧
        (fetchArticleContent fmt url fetched).title = [] ∧
        (fetchArticleContent fmt url fetched).subtitle = [] ∧
        (fetchArticleContent fmt url fetched).content = [] ∧
        (fetchArticleContent fmt url fetched).publishedDate = [] ∧
        (fetchArticleContent fmt url fetched).image =
          chars "https://via.placeholder.com/300x200?text=No+Image" ∧
        (fetchArticleContent fmt url fetched).link = url ∧
        (fetchArticleContent fmt url fetched).sourceDomain = getDomain url ∧
        (fetchArticleContent fmt url fetched).contentTextLength = none) ∧
      ((fetchArticleContent fmt url fetched).contentTextLength.isSome ↔
        ∃ page, fetched = some (200, page)) ∧
      ((fetchArticleContent fmt url fetched).contentTextLength = none →
        contentLengthForValidation (fetchArticleContent fmt url fetched) =
          (fetchArticleContent fmt url fetched).content.length) := by
  intro fmt url fetched
  refine ⟨?_, ?_, ?_⟩
  · rintro (h | ⟨s, page, h, hs⟩)
    · subst h
      exact ⟨rfl, rfl, rfl, rfl, rfl, rfl, rfl, rfl, rfl⟩
    · subst h
      rw [fetchArticleContent, if_pos hs]
      exact ⟨rfl, rfl, rfl, rfl, rfl, rfl, rfl, rfl, rfl⟩
  · constructor
    · intro hsome
      match fetched with
      | none => simp [fetchArticleContent, defaultArticle] at hsome
      | some (s, page) =>
        by_cases hs : s ≠ 200
        · rw [fetchArticleContent, if_pos hs] at hsome
          simp [defaultArticle] at hsome
        · push_neg at hs
          exact ⟨page, by rw [hs]⟩
    · rintro ⟨page, h⟩
      subst h
      rw [fetchArticleContent, if_neg (by simp)]
      simp
  · intro hnone
    rw [contentLengthForValidation, hnone]
    rfl

/-- Witness for C9: a transport failure on a concrete URL returns the
default record without `content_text_length`, and the caller-side lookup
falls back to the content length. -/
theorem fetch_article_content_soft_fail_witness :
    fetchArticleContent id (chars "https://x.it/a") none =
      defaultArticle (chars "https://x.it/a") ∧
    (fetchArticleContent id (chars "https://x.it/a") none).contentTextLength =
      none ∧
    contentLengthForValidation (fetchArticleContent id (chars "https://x.it/a") none) =
      (fetchArticleContent id (chars "https://x.it/a") none).content.length :=
  ⟨((fetch_article_content_soft_fail id (chars "https://x.it/a") none).1
      (Or.inl rfl)).1,
   ((fetch_article_content_soft_fail id (chars "https://x.it/a") none).1
      (Or.inl rfl)).2.2.2.2.2.2.2.2,
   (fetch_article_content_soft_fail id (chars "https://x.it/a") none).2.2
      ((fetch_article_content_soft_fail id (chars "https://x.it/a") none).1
        (Or.inl rfl)).2.2.2.2.2.2.2.2⟩

/-! ## Feed orchestrator control flow (`generate_feed`, news_search.py 934-1325)

The network-bound stages enter as data: `searchCitations` yields the
citations a category's searches produce (today + historical + top-sources
filtering), `extract` is `extract_news_from_page` (first argument =
`is_citation`), `getParent` is `get_parent_url`, and `select` is the whole
Pass-1/Pass-2 select-validate-summarize stage producing the final feed
items. The dedup and clustering steps are the definitions above. The
return value is modelled exactly: Python returns either the bare `[]`
(early exits) or the tuple `(final_feed, clusters)`. -/

structure Category where
  iabCode : List Char
deriving DecidableEq

structure ClusterInfo where
  clusterName : List Char
  clusterDescription : List Char
  categories : List Category
deriving DecidableEq

/-- The dynamic return of `generate_feed`: a bare empty list, or the
documented `(feed, clusters)` pair. -/
inductive FeedReturn (α : Type) where
  | emptyList
  | pair (feed : List α) (clusters : List (List NewsItem))
deriving DecidableEq

/-- Step-2 dedup of extracted items by link (news_search.py 1091-1098):
keep an item iff its link is truthy and unseen. -/
def dedupNewsByLink : List NewsItem → List (List Char) → List NewsItem
  | [], _ => []
  | it :: rest, seen =>
    if it.link ≠ [] ∧ it.link ∉ seen then
      it :: dedupNewsByLink rest (it.link :: seen)
    else dedupNewsByLink rest seen

/-- Step 2's per-citation extraction with the parent-URL retry
(news_search.py 1059-1089). -/
def extractWithParentRetry (extract : Bool → List Char → List NewsItem)
    (getParent : List Char → Option (List Char)) (url : List Char) :
    List NewsItem :=
  let items := extract true url
  if items.length < 10 then
    match getParent url with
    | some parent =>
      if parent ≠ url then
        items ++ ((extract false parent).filter
          (fun it => !(items.map NewsItem.link).contains it.link))
      else items
    | none => items
  else items

/-- Control-flow model of `generate_feed` (news_search.py 934-1325). -/
def generateFeed (α : Type) (taxonomy : List (ℕ × ClusterInfo))
    (searchCitations : Category → List (List Char))
    (extract : Bool → List Char → List NewsItem)
    (getParent : List Char → Option (List Char))
    (select : List (List NewsItem) → List α)
    (clusterId : ℕ) (uptoStep : Option ℕ) : FeedReturn α :=
  match taxonomy.find? (fun p => p.1 == clusterId) with
  | none => .emptyList
  | some (_, info) =>
    let citations := dedupCitations ((info.categories.map searchCitations).flatten)
    if uptoStep = some 1 then .emptyList
    else if citations = [] then .emptyList
    else
      let rawNews := ((citations.take 10).map
        (extractWithParentRetry extract getParent)).flatten
      let allNews := dedupNewsByLink rawNews []
      if uptoStep = some 2 then .emptyList
      else if allNews = [] then .emptyList
      else
        let clusters := clusterNewsBySimilarity allNews (1/4)
        if uptoStep = some 3 then .emptyList
        else .pair (select clusters) clusters

/-- C1 (refuting the pair shape): on every early exit — unknown cluster id,
any `upto_step` checkpoint, all searches empty, or all extractions empty —
`generate_feed` returns the bare empty list `[]`, which is not the
documented `(feed, clusters)` pair; both callers
(`news_search_lambda.py:21` and `news_search.py:1403`) unpack a pair, so
the early exit raises at the call site instead of yielding an empty feed. -/
theorem generate_feed_early_exit_returns_bare_list :
    ∀ (α : Type) (taxonomy : List (ℕ × ClusterInfo))
      (searchCitations : Category → List (List Char))
      (extract : Bool → List Char → List NewsItem)
      (getParent : List Char → Option (List Char))
      (select : List (List NewsItem) → List α)
      (clusterId : ℕ) (uptoStep : Option ℕ),
      ((taxonomy.find? (fun p => p.1 == clusterId) = none ∨
        uptoStep = some 1 ∨ uptoStep = some 2 ∨ uptoStep = some 3 ∨
        (∀ cat, searchCitations cat = []) ∨
        (∀ b u, extract b u = [])) →
        generateFeed α taxonomy searchCitations extract getParent select
          clusterId uptoStep = FeedReturn.emptyList) ∧
      (∀ (feed : List α) (cl : List (List NewsItem)),
        (FeedReturn.emptyList : FeedReturn α) ≠ FeedReturn.pair feed cl) := by
  intro α taxonomy searchCitations extract getParent select clusterId uptoStep
  constructor
  · intro hcase
    rw [generateFeed]
    cases hfind : taxonomy.find? (fun p => p.1 == clusterId) with
    | none => rfl
    | some pr =>
      obtain ⟨k, info⟩ := pr
      rcases hcase with h | h | h | h | h | h
      · rw [hfind] at h
        exact absurd h (by simp)
      · subst h
        simp
      · subst h
        simp
      · subst h
        simp
      · have hflat : (info.categories.map searchCitations).flatten = [] := by
          rw [List.flatten_eq_nil_iff]
          intro xs hxs
          obtain ⟨cat, _, rfl⟩ := List.mem_map.mp hxs
          exact h cat
        simp [hflat, dedupCitations, dedupCitationsGo]
      · have hexe : ∀ url, extractWithParentRetry extract getParent url = [] := by
          intro url
          rw [extractWithParentRetry]
          simp [h]
          cases getParent url <;> rfl
        have hraw : ∀ ls : List (List Char),
            (List.take 10 (ls.map (extractWithParentRetry extract getParent))).flatten =
              [] := by
          intro ls
          rw [List.flatten_eq_nil_iff]
          intro xs hxs
          have hxs2 : xs ∈ ls.map (extractWithParentRetry extract getParent) :=
            List.mem_of_mem_take hxs
          obtain ⟨u, _, rfl⟩ := List.mem_map.mp hxs2
          exact hexe u
        have hraw2 : ∀ ls : List (List Char),
            ((List.take 10 ls).map (extractWithParentRetry extract getParent)).flatten =
              [] := by
          intro ls
          rw [List.flatten_eq_nil_iff]
          intro xs hxs
          obtain ⟨u, _, rfl⟩ := List.mem_map.mp hxs
          exact hexe u
        simp [hraw, hraw2, dedupNewsByLink]
  · intro feed cl h
    exact FeedReturn.noConfusion h

/-- Witness for C1: with an empty taxonomy (so cluster id 5 is unknown) and
trivial stages, `generate_feed` returns the bare `[]`, which differs from
every `(feed, clusters)` pair. -/
theorem generate_feed_early_exit_returns_bare_list_witness :
    generateFeed ℕ [] (fun _ => []) (fun _ _ => []) (fun _ => none)
      (fun _ => []) 5 none = FeedReturn.emptyList ∧
    (FeedReturn.emptyList : FeedReturn ℕ) ≠ FeedReturn.pair [] [] :=
  ⟨(generate_feed_early_exit_returns_bare_list ℕ [] (fun _ => [])
      (fun _ _ => []) (fun _ => none) (fun _ => []) 5 none).1 (Or.inl rfl),
   (generate_feed_early_exit_returns_bare_list ℕ [] (fun _ => [])
      (fun _ _ => []) (fun _ => none) (fun _ => []) 5 none).2 [] []⟩

/-! ## Date recency (`is_date_recent`, news_utils.py lines 42-118)

`datetime.date` is modelled as a year/month/day record, `date.isoformat()`
as zero-padded rendering, `datetime.strptime` per format as a parser with
CPython's regex semantics (`%Y` exactly 4 digits, `%m`/`%d` one or two
digits with their alternation order, full-string consumption, calendar
validation), and `(today - parsed).days` as a difference of civil day
numbers. `date.today()` enters as an explicit `today` argument. -/

structure Date where
  year : ℕ
  month : ℕ
  day : ℕ
deriving DecidableEq

def isLeap (y : ℕ) : Bool :=
  y % 4 == 0 && (!(y % 100 == 0) || y % 400 == 0)

def daysInMonth (y m : ℕ) : ℕ :=
  if m = 2 then (if isLeap y then 29 else 28)
  else if m = 4 ∨ m = 6 ∨ m = 9 ∨ m = 11 then 30
  else 31

/-- The dates `datetime.date` can hold (what `date.today()` returns). -/
def validDate (dt : Date) : Prop :=
  1 ≤ dt.year ∧ dt.year ≤ 9999 ∧ 1 ≤ dt.month ∧ dt.month ≤ 12 ∧
    1 ≤ dt.day ∧ dt.day ≤ daysInMonth dt.year dt.month

def digitChar (a : ℕ) : Char := Char.ofNat (48 + a % 10)

def pad2 (n : ℕ) : List Char := [digitChar (n / 10 % 10), digitChar (n % 10)]

def pad4 (n : ℕ) : List Char :=
  [digitChar (n / 1000 % 10), digitChar (n / 100 % 10),
   digitChar (n / 10 % 10), digitChar (n % 10)]

/-- Model of `date.isoformat()` (`YYYY-MM-DD`). -/
def toISO (dt : Date) : List Char :=
  pad4 dt.year ++ '-' :: (pad2 dt.month ++ '-' :: pad2 dt.day)

def decDigit (c : Char) : ℕ := c.toNat - 48

/-- `%Y`: exactly four digits. -/
def parse4d : List Char → Option (ℕ × List Char)
  | a :: b :: c :: d :: rest =>
    if a.isDigit && b.isDigit && c.isDigit && d.isDigit then
      some ((((decDigit a * 10) + decDigit b) * 10 + decDigit c) * 10 +
        decDigit d, rest)
    else none
  | _ => none

def expectChar (c : Char) : List Char → Option (List Char)
  | x :: rest => if x = c then some rest else none
  | [] => none

/-- `%m`: CPython's `1[0-2]|0[1-9]|[1-9]` (two digits preferred). -/
def parseMonth : List Char → Option (ℕ × List Char)
  | a :: b :: rest =>
    if a.isDigit && b.isDigit &&
        ((decDigit a == 1 && decide (decDigit b ≤ 2)) ||
         (decDigit a == 0 && decide (1 ≤ decDigit b))) then
      some (decDigit a * 10 + decDigit b, rest)
    else if a.isDigit && decide (1 ≤ decDigit a) && decide (decDigit a ≤ 9) then
      some (decDigit a, b :: rest)
    else none
  | [a] =>
    if a.isDigit && decide (1 ≤ decDigit a) && decide (decDigit a ≤ 9) then
      some (decDigit a, [])
    else none
  | [] => none

/-- `%d`: CPython's `3[01]|[12]\d|0[1-9]|[1-9]` (two digits preferred). -/
def parseDay : List Char → Option (ℕ × List Char)
  | a :: b :: rest =>
    if a.isDigit && b.isDigit &&
        ((decDigit a == 3 && decide (decDigit b ≤ 1)) ||
         (decide (1 ≤ decDigit a) && decide (decDigit a ≤ 2)) ||
         (decDigit a == 0 && decide (1 ≤ decDigit b))) then
      some (decDigit a * 10 + decDigit b, rest)
    else if a.isDigit && decide (1 ≤ decDigit a) && decide (decDigit a ≤ 9) then
      some (decDigit a, b :: rest)
    else none
  | [a] =>
    if a.isDigit && decide (1 ≤ decDigit a) && decide (decDigit a ≤ 9) then
      some (decDigit a, [])
    else none
  | [] => none

/-- The `datetime(y, m, d)` constructor's range validation. -/
def mkValidDate (y m d : ℕ) : Option Date :=
  if 1 ≤ y ∧ y ≤ 9999 ∧ 1 ≤ m ∧ m ≤ 12 ∧ 1 ≤ d ∧ d ≤ daysInMonth y m then
    some ⟨y, m, d⟩
  else none

/-- `strptime` with a `%Y sep %m sep %d` format (full consumption). -/
def parseYMDFmt (sep : Char) (l : List Char) : Option Date :=
  (parse4d l).bind fun yr =>
    (expectChar sep yr.2).bind fun r2 =>
      (parseMonth r2).bind fun mr =>
        (expectChar sep mr.2).bind fun r4 =>
          (parseDay r4).bind fun dr =>
            if dr.2 = [] then mkValidDate yr.1 mr.1 dr.1 else none

/-- `strptime` with a `%d sep %m sep %Y` format (full consumption). -/
def parseDMYFmt (sep : Char) (l : List Char) : Option Date :=
  (parseDay l).bind fun dr =>
    (expectChar sep dr.2).bind fun r2 =>
      (parseMonth r2).bind fun mr =>
        (expectChar sep mr.2).bind fun r4 =>
          (parse4d r4).bind fun yr =>
            if yr.2 = [] then mkValidDate yr.1 mr.1 dr.1 else none

/-- `strptime` with a `%m sep %d sep %Y` format (full consumption). -/
def parseMDYFmt (sep : Char) (l : List Char) : Option Date :=
  (parseMonth l).bind fun mr =>
    (expectChar sep mr.2).bind fun r2 =>
      (parseDay r2).bind fun dr =>
        (expectChar sep dr.2).bind fun r4 =>
          (parse4d r4).bind fun yr =>
            if yr.2 = [] then mkValidDate yr.1 mr.1 dr.1 else none

/-- The format-probing loop of `is_date_recent` on `date_str[:10]`:
`%Y-%m-%d`, `%d/%m/%Y`, `%m/%d/%Y`, `%d-%m-%Y`, `%Y/%m/%d`, first success
wins. -/
def tryParseDate (l : List Char) : Option Date :=
  (parseYMDFmt '-' (l.take 10)).orElse fun _ =>
    (parseDMYFmt '/' (l.take 10)).orElse fun _ =>
      (parseMDYFmt '/' (l.take 10)).orElse fun _ =>
        (parseDMYFmt '-' (l.take 10)).orElse fun _ =>
          parseYMDFmt '/' (l.take 10)

/-- Civil day number (proleptic Gregorian; models `datetime.date`
subtraction: `(a - b).days = daysFromCivil a - daysFromCivil b`). -/
def daysFromCivil (y m d : ℤ) : ℤ :=
  let yAdj := if m ≤ 2 then y - 1 else y
  let era := (if 0 ≤ yAdj then yAdj else yAdj - 399) / 400
  let yoe := yAdj - era * 400
  let doy := (153 * (if 2 < m then m - 3 else m + 9) + 2) / 5 + d - 1
  let doe := yoe * 365 + yoe / 4 - yoe / 100 + doy
  era * 146097 + doe - 719468

def daysFromCivilDate (dt : Date) : ℤ :=
  daysFromCivil (dt.year : ℤ) (dt.month : ℤ) (dt.day : ℤ)

/-- The multi-language "today" keywords of `is_date_recent`. -/
def todayKeywords : List (List Char) :=
  [chars "oggi", chars "today", chars "adesso", chars "now",
   chars "just now", chars "appena", chars "hoy", chars "ahora",
   chars "actualmente",
   chars "aujourd" ++ [Char.ofNat 39] ++ chars "hui",
   chars "maintenant", chars "actuellement"]

/-- The unit alternatives of the hours pattern
`(\d+)\s*(ore?|hour|hours|horas?|heures?)...`. -/
def unitsHours : List (List Char) :=
  [chars "or", chars "ore", chars "hour", chars "hours", chars "hora",
   chars "horas", chars "heure", chars "heures"]

/-- The unit alternatives of the minutes pattern
`(\d+)\s*(minut[io]?|min|minutes?)...`. -/
def unitsMinutes : List (List Char) :=
  [chars "minut", chars "minuti", chars "minuto", chars "min",
   chars "minute", chars "minutes"]

/-- The unit alternatives of the seconds pattern
`(\d+)\s*(second[io]?|sec|seconds?|segundos?|secondes?)...`. -/
def unitsSeconds : List (List Char) :=
  [chars "second", chars "secondi", chars "secondo", chars "sec",
   chars "seconds", chars "segundo", chars "segundos", chars "seconde",
   chars "secondes"]

def unitPrefixAt (units : List (List Char)) (l : List Char) : Bool :=
  units.any (fun u => u.isPrefixOf l)

/-- `re.search` of `(\d+)\s*(unit...)(suffix)?`: some position starts a
digit run followed by optional whitespace and a unit alternative (the
trailing group is optional, so it never blocks a match). -/
def searchTimePattern (units : List (List Char)) : List Char → Bool
  | [] => false
  | c :: rest =>
    (c.isDigit &&
      unitPrefixAt units
        (((c :: rest).dropWhile Char.isDigit).dropWhile Char.isWhitespace)) ||
    searchTimePattern units rest

/-- The reason categories of `is_date_recent`'s second return component
(the interpolated message text is diagnostic only). -/
inductive ReasonTag where
  | noDate | exactMatch | keywordMatch | recentTime | withinDays | tooOld
  | componentsMatch | notRecent
deriving DecidableEq

/-- Model of `is_date_recent` (news_utils.py 42-118). -/
def isDateRecent (dateStr : List Char) (maxDays : ℕ) (today : Date) :
    Bool × ReasonTag :=
  if dateStr = [] then (false, .noDate)
  else
    let dsl := stripWs (lowerS dateStr)
    if dateStr.take 10 = toISO today then (true, .exactMatch)
    else if todayKeywords.any (fun kw => containsSub dsl kw) then
      (true, .keywordMatch)
    else if searchTimePattern unitsHours dsl ||
        searchTimePattern unitsMinutes dsl ||
        searchTimePattern unitsSeconds dsl then
      (true, .recentTime)
    else
      match tryParseDate dateStr with
      | some parsed =>
        if daysFromCivilDate today - daysFromCivilDate parsed ≤ (maxDays : ℤ) then
          (true, .withinDays)
        else (false, .tooOld)
      | none =>
        if containsSub dateStr (natToChars today.day) &&
            containsSub dateStr (natToChars today.year) then
          (true, .componentsMatch)
        else (false, .notRecent)

theorem isDigit_toNat {c : Char} : c.isDigit = true ↔ 48 ≤ c.toNat ∧ c.toNat ≤ 57 := by
  simp [Char.isDigit, Char.le_def, Char.toNat, UInt32.le_def, BitVec.le_def,
    UInt32.toNat]

theorem toLower_of_digit {c : Char} (h : c.isDigit = true) : c.toLower = c := by
  rcases isDigit_toNat.mp h with ⟨h1, h2⟩
  simp [Char.toLower]
  intro hge hle
  omega

theorem digitChar_toNat (a : ℕ) : (digitChar a).toNat = 48 + a % 10 := by
  have hlt : a % 10 < 10 := Nat.mod_lt _ (by norm_num)
  have h : (48 + a % 10).isValidChar := by
    constructor
    omega
  simp [digitChar, Char.ofNat, h, Char.ofNatAux, Char.toNat,
    UInt32.toNat, BitVec.toNat_ofNatLt]

theorem digitChar_isDigit (a : ℕ) : (digitChar a).isDigit = true := by
  rw [isDigit_toNat, digitChar_toNat]
  have : a % 10 < 10 := Nat.mod_lt _ (by norm_num)
  omega

theorem decDigit_digitChar (a : ℕ) : decDigit (digitChar a) = a % 10 := by
  rw [decDigit, digitChar_toNat]
  omega

theorem digitChar_ne_dash (a : ℕ) : digitChar a ≠ '-' := by
  intro h
  have := digitChar_toNat a
  rw [h] at this
  have : ('-').toNat = 45 := by decide
  omega

theorem parse4d_pad4 (y : ℕ) (rest : List Char) (hy : y ≤ 9999) :
    parse4d (pad4 y ++ rest) = some (y, rest) := by
  simp only [pad4, List.cons_append, List.nil_append, parse4d]
  rw [if_pos (by simp [digitChar_isDigit])]
  simp only [decDigit_digitChar]
  congr 1
  congr 1
  omega

theorem parseMonth_pad2 (m : ℕ) (rest : List Char) (h1 : 1 ≤ m) (h2 : m ≤ 12) :
    parseMonth (pad2 m ++ rest) = some (m, rest) := by
  simp only [pad2, List.cons_append, List.nil_append, parseMonth]
  have hcond : ((digitChar (m / 10 % 10)).isDigit && (digitChar (m % 10)).isDigit &&
      ((decDigit (digitChar (m / 10 % 10)) == 1 &&
        decide (decDigit (digitChar (m % 10)) ≤ 2)) ||
       (decDigit (digitChar (m / 10 % 10)) == 0 &&
        decide (1 ≤ decDigit (digitChar (m % 10)))))) = true := by
    simp only [digitChar_isDigit, decDigit_digitChar, Bool.true_and,
      Bool.and_eq_true, Bool.or_eq_true, beq_iff_eq, decide_eq_true_eq]
    omega
  rw [if_pos hcond]
  simp only [decDigit_digitChar]
  congr 1
  congr 1
  omega

theorem parseDay_pad2 (d : ℕ) (rest : List Char) (h1 : 1 ≤ d) (h2 : d ≤ 31) :
    parseDay (pad2 d ++ rest) = some (d, rest) := by
  simp only [pad2, List.cons_append, List.nil_append, parseDay]
  have hcond : ((digitChar (d / 10 % 10)).isDigit && (digitChar (d % 10)).isDigit &&
      ((decDigit (digitChar (d / 10 % 10)) == 3 &&
        decide (decDigit (digitChar (d % 10)) ≤ 1)) ||
       (decide (1 ≤ decDigit (digitChar (d / 10 % 10))) &&
        decide (decDigit (digitChar (d / 10 % 10)) ≤ 2)) ||
       (decDigit (digitChar (d / 10 % 10)) == 0 &&
        decide (1 ≤ decDigit (digitChar (d % 10)))))) = true := by
    simp only [digitChar_isDigit, decDigit_digitChar, Bool.true_and,
      Bool.and_eq_true, Bool.or_eq_true, beq_iff_eq, decide_eq_true_eq]
    omega
  rw [if_pos hcond]
  simp only [decDigit_digitChar]
  congr 1
  congr 1
  omega

/-- Round trip: parsing today's ISO rendering with `%Y-%m-%d` gives back
today. -/
theorem parseYMDFmt_toISO {today : Date} (h : validDate today) :
    parseYMDFmt '-' (toISO today) = some today := by
  obtain ⟨hy1, hy2, hm1, hm2, hd1, hd2⟩ := h
  have hd31 : today.day ≤ 31 := by
    have : daysInMonth today.year today.month ≤ 31 := by
      rw [daysInMonth]
      split
      · split <;> omega
      · split <;> omega
    omega
  rw [parseYMDFmt, toISO, parse4d_pad4 today.year _ hy2]
  simp only [Option.some_bind]
  rw [expectChar]
  rw [if_pos rfl]
  simp only [Option.some_bind]
  rw [parseMonth_pad2 today.month _ hm1 hm2]
  simp only [Option.some_bind]
  rw [expectChar, if_pos rfl]
  simp only [Option.some_bind]
  rw [show pad2 today.day = pad2 today.day ++ [] by simp]
  rw [parseDay_pad2 today.day [] hd1 hd31]
  simp only [Option.some_bind]
  simp only [if_true, mkValidDate,
    if_pos (show 1 ≤ today.year ∧ today.year ≤ 9999 ∧ 1 ≤ today.month ∧
      today.month ≤ 12 ∧ 1 ≤ today.day ∧
      today.day ≤ daysInMonth today.year today.month from
      ⟨hy1, hy2, hm1, hm2, hd1, hd2⟩)]

theorem parse4d_consumes {l rest : List Char} {y : ℕ}
    (h : parse4d l = some (y, rest)) :
    ∃ pre, l = pre ++ rest ∧ ∀ c ∈ pre, c.isDigit = true := by
  cases l with
  | nil => simp [parse4d] at h
  | cons a l1 => cases l1 with
    | nil => simp [parse4d] at h
    | cons b l2 => cases l2 with
      | nil => simp [parse4d] at h
      | cons c2 l3 => cases l3 with
        | nil => simp [parse4d] at h
        | cons d2 r =>
          rw [parse4d] at h
          by_cases hc : (a.isDigit && b.isDigit && c2.isDigit && d2.isDigit) = true
          · rw [if_pos hc] at h
            have h2 := Option.some.inj h
            have hrest : r = rest := congrArg Prod.snd h2
            subst hrest
            simp only [Bool.and_eq_true] at hc
            refine ⟨[a, b, c2, d2], rfl, ?_⟩
            intro c hc2
            simp only [List.mem_cons] at hc2
            rcases hc2 with rfl | rfl | rfl | rfl | hfalse
            · exact hc.1.1.1
            · exact hc.1.1.2
            · exact hc.1.2
            · exact hc.2
            · exact absurd hfalse (List.not_mem_nil c)
          · rw [if_neg hc] at h
            exact absurd h (by simp)

theorem parseMonth_consumes {l rest : List Char} {m : ℕ}
    (h : parseMonth l = some (m, rest)) :
    ∃ pre, l = pre ++ rest ∧ ∀ c ∈ pre, c.isDigit = true := by
  cases l with
  | nil => simp [parseMonth] at h
  | cons a l1 => cases l1 with
    | nil =>
      rw [parseMonth] at h
      by_cases hc : (a.isDigit && decide (1 ≤ decDigit a) &&
          decide (decDigit a ≤ 9)) = true
      · rw [if_pos hc] at h
        have h2 := Option.some.inj h
        have hrest : ([] : List Char) = rest := congrArg Prod.snd h2
        simp only [Bool.and_eq_true] at hc
        refine ⟨[a], by rw [← hrest]; simp, ?_⟩
        intro c hc2
        simp only [List.mem_cons] at hc2
        rcases hc2 with rfl | hfalse
        · exact hc.1.1
        · exact absurd hfalse (List.not_mem_nil c)
      · rw [if_neg hc] at h
        exact absurd h (by simp)
    | cons b r =>
      rw [parseMonth] at h
      by_cases hc : (a.isDigit && b.isDigit &&
          ((decDigit a == 1 && decide (decDigit b ≤ 2)) ||
           (decDigit a == 0 && decide (1 ≤ decDigit b)))) = true
      · rw [if_pos hc] at h
        have h2 := Option.some.inj h
        have hrest : r = rest := congrArg Prod.snd h2
        subst hrest
        simp only [Bool.and_eq_true] at hc
        refine ⟨[a, b], rfl, ?_⟩
        intro c hc2
        simp only [List.mem_cons] at hc2
        rcases hc2 with rfl | rfl | hfalse
        · exact hc.1.1
        · exact hc.1.2
        · exact absurd hfalse (List.not_mem_nil c)
      · rw [if_neg hc] at h
        by_cases hc2 : (a.isDigit && decide (1 ≤ decDigit a) &&
            decide (decDigit a ≤ 9)) = true
        · rw [if_pos hc2] at h
          have h2 := Option.some.inj h
          have hrest : b :: r = rest := congrArg Prod.snd h2
          simp only [Bool.and_eq_true] at hc2
          refine ⟨[a], by rw [← hrest]; simp, ?_⟩
          intro c hc3
          simp only [List.mem_cons] at hc3
          rcases hc3 with rfl | hfalse
          · exact hc2.1.1
          · exact absurd hfalse (List.not_mem_nil c)
        · rw [if_neg hc2] at h
          exact absurd h (by simp)

theorem parseDay_consumes {l rest : List Char} {d : ℕ}
    (h : parseDay l = some (d, rest)) :
    ∃ pre, l = pre ++ rest ∧ ∀ c ∈ pre, c.isDigit = true := by
  cases l with
  | nil => simp [parseDay] at h
  | cons a l1 => cases l1 with
    | nil =>
      rw [parseDay] at h
      by_cases hc : (a.isDigit && decide (1 ≤ decDigit a) &&
          decide (decDigit a ≤ 9)) = true
      · rw [if_pos hc] at h
        have h2 := Option.some.inj h
        have hrest : ([] : List Char) = rest := congrArg Prod.snd h2
        simp only [Bool.and_eq_true] at hc
        refine ⟨[a], by rw [← hrest]; simp, ?_⟩
        intro c hc2
        simp only [List.mem_cons] at hc2
        rcases hc2 with rfl | hfalse
        · exact hc.1.1
        · exact absurd hfalse (List.not_mem_nil c)
      · rw [if_neg hc] at h
        exact absurd h (by simp)
    | cons b r =>
      rw [parseDay] at h
      by_cases hc : (a.isDigit && b.isDigit &&
          ((decDigit a == 3 && decide (decDigit b ≤ 1)) ||
           (decide (1 ≤ decDigit a) && decide (decDigit a ≤ 2)) ||
           (decDigit a == 0 && decide (1 ≤ decDigit b)))) = true
      · rw [if_pos hc] at h
        have h2 := Option.some.inj h
        have hrest : r = rest := congrArg Prod.snd h2
        subst hrest
        simp only [Bool.and_eq_true] at hc
        refine ⟨[a, b], rfl, ?_⟩
        intro c hc2
        simp only [List.mem_cons] at hc2
        rcases hc2 with rfl | rfl | hfalse
        · exact hc.1.1
        · exact hc.1.2
        · exact absurd hfalse (List.not_mem_nil c)
      · rw [if_neg hc] at h
        by_cases hc2 : (a.isDigit && decide (1 ≤ decDigit a) &&
            decide (decDigit a ≤ 9)) = true
        · rw [if_pos hc2] at h
          have h2 := Option.some.inj h
          have hrest : b :: r = rest := congrArg Prod.snd h2
          simp only [Bool.and_eq_true] at hc2
          refine ⟨[a], by rw [← hrest]; simp, ?_⟩
          intro c hc3
          simp only [List.mem_cons] at hc3
          rcases hc3 with rfl | hfalse
          · exact hc2.1.1
          · exact absurd hfalse (List.not_mem_nil c)
        · rw [if_neg hc2] at h
          exact absurd h (by simp)

theorem expectChar_eq {ch : Char} {l rest : List Char}
    (h : expectChar ch l = some rest) : l = ch :: rest := by
  cases l with
  | nil => simp [expectChar] at h
  | cons x r =>
    rw [expectChar] at h
    by_cases hx : x = ch
    · rw [if_pos hx] at h
      rw [hx, Option.some.inj h]
    · rw [if_neg hx] at h
      exact absurd h (by simp)

/-- A string accepted by the `%Y-%m-%d` parser consists of digits and
dashes only. -/
theorem parseYMDFmt_chars {s : List Char} {d : Date}
    (h : parseYMDFmt '-' s = some d) :
    ∀ c ∈ s, c.isDigit = true ∨ c = '-' := by
  rw [parseYMDFmt] at h
  cases h4 : parse4d s with
  | none => rw [h4] at h; exact absurd h (by simp)
  | some yr =>
    rw [h4] at h
    simp only [Option.some_bind] at h
    cases hE1 : expectChar '-' yr.2 with
    | none => rw [hE1] at h; exact absurd h (by simp)
    | some r2 =>
      rw [hE1] at h
      simp only [Option.some_bind] at h
      cases hM : parseMonth r2 with
      | none => rw [hM] at h; exact absurd h (by simp)
      | some mr =>
        rw [hM] at h
        simp only [Option.some_bind] at h
        cases hE2 : expectChar '-' mr.2 with
        | none => rw [hE2] at h; exact absurd h (by simp)
        | some r4 =>
          rw [hE2] at h
          simp only [Option.some_bind] at h
          cases hD : parseDay r4 with
          | none => rw [hD] at h; exact absurd h (by simp)
          | some dr =>
            rw [hD] at h
            simp only [Option.some_bind] at h
            by_cases hnil : dr.2 = []
            · obtain ⟨p1, hs1, hp1⟩ := parse4d_consumes h4
              have hE1' := expectChar_eq hE1
              obtain ⟨p2, hs2, hp2⟩ := parseMonth_consumes hM
              have hE2' := expectChar_eq hE2
              obtain ⟨p3, hs3, hp3⟩ := parseDay_consumes hD
              intro c hc
              rw [hs1, hE1', hs2, hE2', hs3, hnil] at hc
              simp only [List.mem_append, List.mem_cons, List.append_nil] at hc
              rcases hc with h1 | h1 | h1 | h1 | h1
              · exact Or.inl (hp1 c h1)
              · exact Or.inr h1
              · exact Or.inl (hp2 c h1)
              · exact Or.inr h1
              · exact Or.inl (hp3 c h1)
            · rw [if_neg hnil] at h
              exact absurd h (by simp)

theorem stripWs_subset {c : Char} {l : List Char} (h : c ∈ stripWs l) :
    c ∈ l := by
  rw [stripWs] at h
  rw [List.mem_reverse] at h
  have h2 : c ∈ (l.dropWhile Char.isWhitespace).reverse :=
    (List.dropWhile_sublist _).subset h
  rw [List.mem_reverse] at h2
  exact (List.dropWhile_sublist _).subset h2

theorem keyword_reject {dsl : List Char}
    (hdsl : ∀ c ∈ dsl, c.isDigit = true ∨ c = '-') :
    todayKeywords.any (fun kw => containsSub dsl kw) = false := by
  rw [List.any_eq_false]
  intro kw hkw
  have hwit : ∀ k ∈ todayKeywords, ∃ c ∈ k, c.isDigit = false ∧ c ≠ '-' := by
    decide
  obtain ⟨c0, hc0, hd0, hne0⟩ := hwit kw hkw
  intro hcon
  have hmem := mem_of_containsSub hcon c0 hc0
  rcases hdsl c0 hmem with h1 | h1
  · rw [hd0] at h1
    exact Bool.false_ne_true h1
  · exact hne0 h1

theorem searchTimePattern_reject (units : List (List Char))
    (hunits : ∀ u ∈ units, u ≠ [] ∧ (u.headD 'x').isDigit = false ∧
      u.headD 'x' ≠ '-') :
    ∀ l : List Char, (∀ c ∈ l, c.isDigit = true ∨ c = '-') →
      searchTimePattern units l = false := by
  intro l
  induction l with
  | nil => intro _; rfl
  | cons c rest ih =>
    intro hl
    rw [searchTimePattern]
    have hrec := ih (fun c2 hc2 => hl c2 (List.mem_cons_of_mem _ hc2))
    have hhead : (c.isDigit &&
        unitPrefixAt units
          (((c :: rest).dropWhile Char.isDigit).dropWhile Char.isWhitespace)) =
        false := by
      by_cases hcd : c.isDigit = true
      · have hXsub : ∀ ch ∈ ((c :: rest).dropWhile Char.isDigit).dropWhile
            Char.isWhitespace, ch.isDigit = true ∨ ch = '-' := by
          intro ch hch
          apply hl
          exact (List.dropWhile_sublist _).subset
            ((List.dropWhile_sublist _).subset hch)
        have hup : unitPrefixAt units
            (((c :: rest).dropWhile Char.isDigit).dropWhile Char.isWhitespace) =
            false := by
          rw [unitPrefixAt, List.any_eq_false]
          intro u hu
          obtain ⟨hne, hd0, hne0⟩ := hunits u hu
          cases u with
          | nil => exact absurd rfl hne
          | cons c0 t =>
            intro hcon
            have hpre := List.isPrefixOf_iff_prefix.mp hcon
            have hmem : c0 ∈ ((c :: rest).dropWhile Char.isDigit).dropWhile
                Char.isWhitespace :=
              hpre.subset (List.mem_cons_self c0 t)
            rcases hXsub c0 hmem with h1 | h1
            · rw [show (c0 :: t).headD 'x' = c0 from rfl] at hd0
              rw [hd0] at h1
              exact Bool.false_ne_true h1
            · exact hne0 h1
        rw [hup, Bool.and_false]
      · rw [Bool.not_eq_true] at hcd
        rw [hcd, Bool.false_and]
    rw [hhead, hrec]
    rfl

instance (dt : Date) : Decidable (validDate dt) := by
  unfold validDate
  infer_instance

/-- C4 counterexample: with today = 2026-10-12, the YYYY-MM-DD string
"2026-10-13" (tomorrow — a valid `%Y-%m-%d` date that is not today) makes
`is_date_recent(_, max_days=0)` return true, because the code accepts any
non-positive day difference. -/
theorem is_date_recent_future_counterexample :
    (isDateRecent (chars "2026-10-13") 0 ⟨2026, 10, 12⟩).1 = true ∧
    chars "2026-10-13" ≠ toISO ⟨2026, 10, 12⟩ ∧
    parseYMDFmt '-' (chars "2026-10-13") = some ⟨2026, 10, 13⟩ ∧
    validDate ⟨2026, 10, 12⟩ := by
  refine ⟨by decide, by decide, by decide, by decide⟩

/-- C4 amended: for a string accepted by the `%Y-%m-%d` parser (10
characters), `is_date_recent(s, max_days=0)` is true iff the parsed date's
civil day number is at least today's — i.e. iff the date is today or in the
future — rather than only when it is exactly today. -/
theorem is_date_recent_zero_days_amended :
    ∀ (s : List Char) (d today : Date),
      validDate today → s.length = 10 → parseYMDFmt '-' s = some d →
      ((isDateRecent s 0 today).1 = true ↔
        daysFromCivilDate today ≤ daysFromCivilDate d) := by
  intro s d today hvalid hlen hparse
  have hne : s ≠ [] := by
    intro h
    rw [h] at hlen
    simp at hlen
  have htake : s.take 10 = s := by
    rw [← hlen]
    exact List.take_length s
  simp only [isDateRecent, if_neg hne]
  by_cases hexact : s.take 10 = toISO today
  · rw [if_pos hexact]
    have hs : s = toISO today := by rw [← htake, hexact]
    rw [hs, parseYMDFmt_toISO hvalid] at hparse
    have hd : d = today := (Option.some.inj hparse).symm
    rw [hd]
    simp
  · rw [if_neg hexact]
    have hchars := parseYMDFmt_chars hparse
    have hdsl : ∀ c ∈ stripWs (lowerS s), c.isDigit = true ∨ c = '-' := by
      intro c hc
      have hc2 : c ∈ lowerS s := stripWs_subset hc
      obtain ⟨c0, hc0, rfl⟩ := List.mem_map.mp hc2
      rcases hchars c0 hc0 with h1 | h1
      · exact Or.inl (by rw [toLower_of_digit h1]; exact h1)
      · exact Or.inr (by rw [h1]; decide)
    rw [if_neg (by rw [keyword_reject hdsl]; exact Bool.false_ne_true)]
    have hu1 : ∀ u ∈ unitsHours, u ≠ [] ∧ (u.headD 'x').isDigit = false ∧
        u.headD 'x' ≠ '-' := by decide
    have hu2 : ∀ u ∈ unitsMinutes, u ≠ [] ∧ (u.headD 'x').isDigit = false ∧
        u.headD 'x' ≠ '-' := by decide
    have hu3 : ∀ u ∈ unitsSeconds, u ≠ [] ∧ (u.headD 'x').isDigit = false ∧
        u.headD 'x' ≠ '-' := by decide
    rw [if_neg (by
      rw [searchTimePattern_reject unitsHours hu1 _ hdsl,
        searchTimePattern_reject unitsMinutes hu2 _ hdsl,
        searchTimePattern_reject unitsSeconds hu3 _ hdsl]
      simp)]
    have htry : tryParseDate s = some d := by
      rw [tryParseDate, htake, hparse]
      rfl
    rw [htry]
    show (if daysFromCivilDate today - daysFromCivilDate d ≤ ((0 : ℕ) : ℤ) then
        (true, ReasonTag.withinDays) else (false, ReasonTag.tooOld)).1 = true ↔
      daysFromCivilDate today ≤ daysFromCivilDate d
    by_cases hle : daysFromCivilDate today - daysFromCivilDate d ≤ ((0 : ℕ) : ℤ)
    · rw [if_pos hle]
      constructor
      · intro _
        omega
      · intro _
        rfl
    · rw [if_neg hle]
      constructor
      · intro h
        exact absurd h (by simp)
      · intro hR
        exfalso
        omega

/-- Witness for the amended C4 theorem at s = "2026-10-12",
today = 2026-10-12 (the date is literally today). -/
theorem is_date_recent_zero_days_amended_witness :
    (isDateRecent (chars "2026-10-12") 0 ⟨2026, 10, 12⟩).1 = true ↔
      daysFromCivilDate ⟨2026, 10, 12⟩ ≤ daysFromCivilDate ⟨2026, 10, 12⟩ :=
  is_date_recent_zero_days_amended (chars "2026-10-12") ⟨2026, 10, 12⟩
    ⟨2026, 10, 12⟩ (by decide) (by decide) (by decide)

end Feed
